import Mathlib

/-!
Verification development for the odoo-web3 reconciliation pipeline.

The TypeScript sources are shallowly embedded:
- JS `number`s are carried as exact rationals (`ℚ`); `x.toFixed(2)` followed
  by unary `+` is modelled as exact decimal rounding to 2 places with ties
  toward +∞ (the ECMAScript "pick the larger n" rule).  In the blockchain.ts
  conversion helpers, where the 53-bit width of a double is observable, the
  binary64 roundings of `Number(bigint)`, float division and `10 ** d` are
  modelled explicitly (`dblRound`), and `toFixed`'s fallback to exponential
  notation (which makes the subsequent `BigInt` parse throw) is modelled as
  an error.
- JS `BigInt` is `ℤ`, array/object state is explicit record state, `async`
  remote calls that can fail are `Except String`.
- `viem`'s `formatUnits(v, d)` renders the exact decimal expansion of
  `v / 10^d`; its numeric value is modelled as that exact rational.
- Only ASCII-relevant parts of JS `toUpperCase`/`toLowerCase`/`\s` are
  modelled (the pipeline applies them to hex addresses and IBAN-like strings).
-/

namespace OdooWeb3

/-- Numeric value of JS `+(x.toFixed(2))`: decimal rounding to 2 places,
ties toward the larger value, on the exact-rational model of the double. -/
def round2 (q : ℚ) : ℚ := ((⌊q * 100 + 1/2⌋ : ℤ) : ℚ) / 100

/-- Exact value of viem `formatUnits(value, decimals)` (pure digit shifting,
so the rendered decimal string denotes exactly `value / 10^decimals`). -/
def formatUnits (value : ℤ) (decimals : ℕ) : ℚ := (value : ℚ) / (10 : ℚ) ^ decimals

/-! ### src/lib/blockchain.ts -/

/-- Round a rational to the nearest integer, ties to the even one — the
rounding applied by IEEE-754 binary64 arithmetic. -/
def rndEven (y : ℚ) : ℤ :=
  if y - ⌊y⌋ < 1/2 then ⌊y⌋
  else if 1/2 < y - ⌊y⌋ then ⌊y⌋ + 1
  else if ⌊y⌋ % 2 = 0 then ⌊y⌋ else ⌊y⌋ + 1

/-- Round an exact rational to the value of the nearest IEEE-754 binary64
double: 53-bit significand, round to nearest, ties to even (the exponent
range is not clamped, which is faithful for every magnitude these helpers
handle).  This is the rounding performed by JS `Number(bigint)`, by float
division, and — as correct rounding — by `10 ** d`. -/
def dblRound (q : ℚ) : ℚ :=
  if q = 0 then 0
  else
    (if q < 0 then -1 else 1) *
      (rndEven (|q| / 2 ^ (Int.log 2 |q| - 52)) : ℚ) * 2 ^ (Int.log 2 |q| - 52)

/-- `formatTokenAmount(amount, decimals)`:
`Number(value) / Number(BigInt(10 ** decimals))` in JS doubles —
`Number(value)` rounds the BigInt to the nearest double, `10 ** decimals` is
the double power (always an integer, so the `BigInt(...)`/`Number(...)`
round trip on it is the identity), and the division rounds once more. -/
def formatTokenAmount (amount : ℤ) (decimals : ℕ) : ℚ :=
  dblRound (dblRound (amount : ℚ) / dblRound ((10 : ℚ) ^ decimals))

/-- `parseTokenAmount(amount, decimals)`: `amount.toFixed(decimals)` is split
at the decimal point and the digit blocks are concatenated into a BigInt.
`toFixed` throws for more than 100 digits; for magnitudes `≥ 10^21` it falls
back to exponential notation (`"1e+21"`), which the concatenated `BigInt`
parse rejects.  Otherwise the digits denote the half-up rounding of the
magnitude at `decimals` places, with the sign prepended. -/
def parseTokenAmount (amount : ℚ) (decimals : ℕ) : Except String ℤ :=
  if 100 < decimals then .error "toFixed() digits argument must be between 0 and 100"
  else if 10 ^ 21 ≤ |amount| then .error "Cannot convert exponential notation to a BigInt"
  else .ok ((if amount < 0 then -1 else 1) * ⌊|amount| * (10 : ℚ) ^ decimals + 1/2⌋)

/-! ### src/lib/etherscan.ts -/

/-- A transfer event as delivered by the block-explorer API.  `value` is the
BigInt reading of the decimal string field; `date` is the ISO date rendered
from `timeStamp` by `new Date(...).toISOString().split("T")[0]` (calendar
arithmetic is not modelled, the rendered date is carried as an attribute). -/
structure TransferEvent where
  hash : String
  transactionIndex : String
  fromAddr : String
  toAddr : String
  value : ℤ
  tokenDecimal : ℕ
  timeStamp : ℤ
  date : String
deriving DecidableEq

/-- The `result` field of an Etherscan JSON response: either an array of
records or a bare string. -/
inductive EtherscanResult where
  | arr (xs : List TransferEvent)
  | str (s : String)
deriving DecidableEq

/-- An Etherscan JSON response together with the HTTP-level `response.ok`
flag and `statusText`. -/
structure EtherscanResponse where
  httpOk : Bool
  statusText : String
  status : String
  message : String
  result : EtherscanResult
deriving DecidableEq

/-- JS string interpolation of the `result` field (`String(data.result)`):
a string renders as itself, an array of records as comma-joined
`[object Object]` items. -/
def renderResult : EtherscanResult → String
  | .str s => s
  | .arr xs => String.intercalate "," (xs.map fun _ => "[object Object]")

/-- The message of the error raised by `request` for a failure-status
response: `Etherscan API error: ${data.message || data.result}`. -/
def etherscanErrMsg (resp : EtherscanResponse) : String :=
  "Etherscan API error: " ++ (if resp.message == "" then renderResult resp.result else resp.message)

/-- `EtherscanClient.request`: HTTP failure throws; a response with
`status === "0"` and a message other than `"No transactions found"` throws;
otherwise `data.result` is returned. -/
def request (resp : EtherscanResponse) : Except String EtherscanResult :=
  if !resp.httpOk then
    .error ("Etherscan API request failed: " ++ resp.statusText)
  else if resp.status == "0" && resp.message != "No transactions found" then
    .error (etherscanErrMsg resp)
  else
    .ok resp.result

/-- Does `l` start with `pat`? -/
def startsWithChars : List Char → List Char → Bool
  | [], _ => true
  | _ :: _, [] => false
  | a :: as, b :: bs => a == b && startsWithChars as bs

/-- Substring occurrence on character lists. -/
def containsSubChars (pat : List Char) : List Char → Bool
  | [] => startsWithChars pat []
  | b :: bs => startsWithChars pat (b :: bs) || containsSubChars pat bs

/-- JS `String#includes` test. -/
def containsSub (s pat : String) : Bool := containsSubChars pat.data s.data

/-- `EtherscanClient.getTokenTransfers` (response handling): a non-array
result becomes `[]`; an error whose message contains
`"No transactions found"` is converted to `[]`; other errors re-throw. -/
def getTokenTransfers (resp : EtherscanResponse) : Except String (List TransferEvent) :=
  match request resp with
  | .ok r =>
    .ok (match r with
      | .arr xs => xs
      | .str _ => [])
  | .error e =>
    if containsSub e "No transactions found" then .ok [] else .error e

/-! ### src/lib/odoo.ts — OdooClient -/

structure OdooConfig where
  url : String
  database : String
  username : String
  password : String
deriving DecidableEq

/-- Client state: `uid` is `null` until a successful login stores the
returned user id; `dryRun` is fixed at construction. -/
structure OdooClient where
  config : OdooConfig
  uid : Option ℕ
  dryRun : Bool
deriving DecidableEq

/-- JS truthiness test `!this.uid`: `null` and `0` are both falsy. -/
def uidFalsy (c : OdooClient) : Bool :=
  match c.uid with
  | none => true
  | some n => n == 0

/-- One JSON-RPC `execute_kw` invocation, recorded as (model, method). -/
structure RpcCall where
  model : String
  method : String
deriving DecidableEq

/-- A raw `account.move.line` record as returned by `search_read`. -/
structure MoveLineRec where
  id : ℕ
  name : String
  date : String
  ref : String
  debit : ℚ
  credit : ℚ
deriving DecidableEq

/-- A mapped row of `getLatestTransactions`. -/
structure JournalTransaction where
  id : ℕ
  name : String
  date : String
  ref : String
  amount : ℚ
  debit : ℚ
  credit : ℚ
deriving DecidableEq

structure JournalEntryLine where
  debit : ℚ
  credit : ℚ
  name : String
  partner_id : ℕ
deriving DecidableEq

structure JournalEntry where
  ref : String
  date : String
  journal_id : ℕ
  line_ids : List JournalEntryLine
deriving DecidableEq

/-- Responses of the remote Odoo server (an external collaborator): one
field per remote method the modelled client operations invoke. -/
structure OdooRemote where
  login : OdooConfig → Except String ℕ
  moveLineSearchRead : ℕ → ℕ → Except String (List MoveLineRec)
  partnerSearchByName : String → Except String (List ℕ)
  partnerCreate : String → Except String ℕ
  bankAccountCreate : String → ℕ → Except String ℕ
  moveCreate : JournalEntry → Except String ℕ
  moveActionPost : ℕ → Except String Unit

/-- `authenticate()`: calls `common.login`; on success stores the uid and
returns its truthiness, on failure logs and returns `false`. -/
def authenticate (remote : OdooRemote) (c : OdooClient) : OdooClient × Bool :=
  match remote.login c.config with
  | .ok n => ({ c with uid := some n }, n != 0)
  | .error _ => (c, false)

/-- The error every guarded operation raises when `uid` is unset. -/
def notAuthMsg : String := "Not authenticated. Call authenticate() first."

/-- `getLatestTransactions(journalId, limit)`: guard, then one
`account.move.line` `search_read`, mapping `debit - credit` to `amount`.
Each operation returns the list of remote calls it issued together with
its result. -/
def getLatestTransactions (remote : OdooRemote) (c : OdooClient) (journalId limit : ℕ) :
    List RpcCall × Except String (List JournalTransaction) :=
  if uidFalsy c then ([], .error notAuthMsg)
  else
    ([⟨"account.move.line", "search_read"⟩],
      (remote.moveLineSearchRead journalId limit).map fun items =>
        items.map fun item =>
          { id := item.id, name := item.name, date := item.date, ref := item.ref
            amount := item.debit - item.credit, debit := item.debit, credit := item.credit })

/-- `getPartnerIdByName(partnerName)`: guard, then a `res.partner`
`search_read` (limit 1); an empty result or a remote failure yields `null`. -/
def getPartnerIdByName (remote : OdooRemote) (c : OdooClient) (partnerName : String) :
    List RpcCall × Except String (Option ℕ) :=
  if uidFalsy c then ([], .error notAuthMsg)
  else
    ([⟨"res.partner", "search_read"⟩],
      match remote.partnerSearchByName partnerName with
      | .ok (pid :: _) => .ok (some pid)
      | .ok [] => .ok none
      | .error _ => .ok none)

/-- `createPartner(partnerName, ...)`: guard, then the dry-run branch
(fixed id 999999, no remote call), then a `res.partner` `create`. -/
def clientCreatePartner (remote : OdooRemote) (c : OdooClient) (partnerName : String) :
    List RpcCall × Except String ℕ :=
  if uidFalsy c then ([], .error notAuthMsg)
  else if c.dryRun then ([], .ok 999999)
  else ([⟨"res.partner", "create"⟩], remote.partnerCreate partnerName)

/-- `createBankAccount(iban, partnerId, ...)`: guard, then the dry-run
branch (fixed id 888888, no remote call), then a `res.partner.bank`
`create`. -/
def clientCreateBankAccount (remote : OdooRemote) (c : OdooClient) (iban : String) (partnerId : ℕ) :
    List RpcCall × Except String ℕ :=
  if uidFalsy c then ([], .error notAuthMsg)
  else if c.dryRun then ([], .ok 888888)
  else ([⟨"res.partner.bank", "create"⟩], remote.bankAccountCreate iban partnerId)

/-- `createJournalEntry(entry)`: guard, dry-run branch (fixed id 999999),
then an `account.move` `create`. -/
def createJournalEntry (remote : OdooRemote) (c : OdooClient) (entry : JournalEntry) :
    List RpcCall × Except String ℕ :=
  if uidFalsy c then ([], .error notAuthMsg)
  else if c.dryRun then ([], .ok 999999)
  else ([⟨"account.move", "create"⟩], remote.moveCreate entry)

/-- `postJournalEntry(moveId)`: guard, dry-run branch (returns true),
then an `account.move` `action_post`; a remote failure is logged and
returned as `false`. -/
def postJournalEntry (remote : OdooRemote) (c : OdooClient) (moveId : ℕ) :
    List RpcCall × Except String Bool :=
  if uidFalsy c then ([], .error notAuthMsg)
  else if c.dryRun then ([], .ok true)
  else
    ([⟨"account.move", "action_post"⟩],
      match remote.moveActionPost moveId with
      | .ok _ => .ok true
      | .error _ => .ok false)

/-! ### String normalisation (tests/…import and server.ts) -/

/-- JS `s.replace(/\s+/g, "")` (and `replace(/\s/g, "")`): drop every
whitespace character. -/
def stripWs (s : String) : String := ⟨s.data.filter fun c => !c.isWhitespace⟩

/-- JS `s.toUpperCase()`, modelled character-wise on the ASCII range. -/
def jsToUpper (s : String) : String := ⟨s.data.map Char.toUpper⟩

/-- JS `s.toLowerCase()`, modelled character-wise on the ASCII range. -/
def jsToLower (s : String) : String := ⟨s.data.map Char.toLower⟩

/-- The counterparty-identifier normalisation of `findOrCreatePartnerBank`:
`iban.replace(/\s+/g, "").toUpperCase()`. -/
def normalizeAcc (iban : String) : String := jsToUpper (stripWs iban)

/-- `normalizeIban` from server.ts: `iban.toUpperCase().replace(/\s/g, "")`. -/
def normalizeIban (iban : String) : String := stripWs (jsToUpper iban)

/-- JS `String#trim`: drop leading and trailing whitespace. -/
def jsTrim (s : String) : String :=
  ⟨((s.data.dropWhile Char.isWhitespace).reverse.dropWhile Char.isWhitespace).reverse⟩

/-- Lexicographic code-unit comparison on character lists. -/
def lexLt : List Char → List Char → Bool
  | _, [] => false
  | [], _ :: _ => true
  | a :: as, b :: bs =>
    if a.toNat < b.toNat then true
    else if b.toNat < a.toNat then false
    else lexLt as bs

/-- JS `<` on strings: lexicographic comparison by code unit. -/
def jsStrLt (a b : String) : Bool := lexLt a.data b.data

/-! ### tests import pipeline — ledger state -/

/-- An `account.bank.statement` record, with the fields the pipeline reads
and writes.  `posted` records a successful `button_post`. -/
structure StatementRec where
  id : ℕ
  journalId : ℕ
  name : String
  balanceStart : Option ℚ
  balanceEndReal : Option ℚ
  posted : Bool
deriving DecidableEq

/-- An `account.bank.statement.line` record as created by the pipeline. -/
structure LineRec where
  statementId : ℕ
  date : String
  paymentRef : String
  amount : ℚ
  name : String
  uniqueImportId : Option String
deriving DecidableEq

/-- A `res.partner` record; the two booleans record whether the
receivable/payable account properties are configured. -/
structure PartnerRec where
  id : ℕ
  name : String
  hasReceivable : Bool
  hasPayable : Bool
deriving DecidableEq

/-- A `res.partner.bank` record. -/
structure BankRec where
  id : ℕ
  accNumber : String
  partnerId : ℕ
deriving DecidableEq

/-- The remote ledger database state touched by the pipeline.  `nextId`
models the server-assigned id of the next created record. -/
structure Ledger where
  statements : List StatementRec
  lines : List LineRec
  partners : List PartnerRec
  banks : List BankRec
  nextId : ℕ
deriving DecidableEq

def emptyLedger : Ledger := ⟨[], [], [], [], 0⟩

/-- Failure injection for the fallible remote write calls (each keyed by
its argument); reads are modelled as always answered. -/
structure Env where
  partnerCreateOk : String → Bool
  bankCreateOk : String → Bool
  lineCreateOk : String → Bool
  postOk : ℕ → Bool

/-- The environment in which every remote call succeeds. -/
def envOk : Env := ⟨fun _ => true, fun _ => true, fun _ => true, fun _ => true⟩

/-- Control-flow decisions of one run: duplicate skip, line creation
(logged only in dry-run mode), month close vs keep-open, and the final
sweep's close of a past monthly statement. -/
inductive Decision where
  | skipDup (uid : String)
  | createLine (paymentRef : String)
  | closeMonth (monthKey : String)
  | keepOpen (monthKey : String)
  | sweepClose (name : String)
deriving DecidableEq, Repr

/-! ### tests import pipeline — operations -/

/-- `monthKeyFromISO`: first 7 characters of the ISO date. -/
def monthKeyFromISO (iso : String) : String := iso.take 7

/-- `firstDayOfMonthISO`. -/
def firstDayOfMonthISO (monthKey : String) : String := monthKey ++ "-01"

/-- Search of `res.partner` by name used by `getPartnerIdByName`
(modelled as exact-name match on the ledger state). -/
def partnerIdByName (st : Ledger) (name : String) : Option ℕ :=
  (st.partners.find? fun p => p.name == name).map (·.id)

/-- `findBankAccountByIdentifier`: `res.partner.bank` search by
`acc_number` (a remote failure is caught and returned as `null`). -/
def findBankAccountByIdentifier (st : Ledger) (acc : String) : Option ℕ :=
  (st.banks.find? fun b => b.accNumber == acc).map (·.id)

/-- `OdooClient.createPartner` as invoked by the pipeline (receivable and
payable account ids are always supplied, so the created partner has both
properties configured). -/
def createPartner (env : Env) (dryRun : Bool) (st : Ledger) (name : String) :
    Except String (ℕ × Ledger) :=
  if dryRun then .ok (999999, st)
  else if env.partnerCreateOk name then
    .ok (st.nextId,
      { st with
        partners := st.partners ++ [⟨st.nextId, name, true, true⟩]
        nextId := st.nextId + 1 })
  else .error "create partner failed"

/-- `OdooClient.createBankAccount` as invoked by the pipeline. -/
def createBankAccount (env : Env) (dryRun : Bool) (st : Ledger) (acc : String) (pid : ℕ) :
    Except String (ℕ × Ledger) :=
  if dryRun then .ok (888888, st)
  else if env.bankCreateOk acc then
    .ok (st.nextId,
      { st with
        banks := st.banks ++ [⟨st.nextId, acc, pid⟩]
        nextId := st.nextId + 1 })
  else .error "create bank account failed"

/-- `findOrCreatePartnerByName(name, dryRun, recvId, payId)`. -/
def findOrCreatePartnerByName (env : Env) (dryRun : Bool) (st : Ledger) (name : String) :
    Except String (ℕ × Ledger) :=
  if jsTrim name == "" then .ok (0, st)
  else
    match partnerIdByName st name with
    | some pid => .ok (pid, st)
    | none =>
      if dryRun then .ok (999999, st)
      else createPartner env dryRun st name

/-- `findOrCreatePartnerBank(partnerId, iban, dryRun, recvId, payId)`. -/
def findOrCreatePartnerBank (env : Env) (dryRun : Bool) (st : Ledger)
    (partnerId : ℕ) (iban : String) : Except String (ℕ × Ledger) :=
  let acc := normalizeAcc iban
  if acc == "" then .ok (0, st)
  else
    match findBankAccountByIdentifier st acc with
    | some bid => .ok (bid, st)
    | none =>
      if dryRun then .ok (888888, st)
      else
        match (if partnerId != 0 then Except.ok (partnerId, st)
               else findOrCreatePartnerByName env dryRun st "Unknown") with
        | .error e => .error e
        | .ok (pid, st1) => createBankAccount env dryRun st1 acc pid

/-- `getOrCreateMonthlyStatement(journalId, monthKey, dryRun)`:
search by journal and name `Feed {monthKey}`, else dry-run id 777777,
else create (Open, no balances set). -/
def getOrCreateMonthlyStatement (dryRun : Bool) (st : Ledger) (journalId : ℕ) (monthKey : String) :
    ℕ × Ledger :=
  let name := "Feed " ++ monthKey
  match st.statements.find? (fun s => s.journalId == journalId && s.name == name) with
  | some s => (s.id, st)
  | none =>
    if dryRun then (777777, st)
    else
      (st.nextId,
        { st with
          statements := st.statements ++ [⟨st.nextId, journalId, name, none, none, false⟩]
          nextId := st.nextId + 1 })

/-- `sumStatementLineAmounts(statementId)`: sum of the statement's line
amounts, then `+total.toFixed(2)`. -/
def sumStatementLineAmounts (st : Ledger) (sid : ℕ) : ℚ :=
  round2 (((st.lines.filter fun l => l.statementId == sid).map (·.amount)).sum)

/-- Write `balance_end_real` on statement `sid`. -/
def setBalanceEnd (st : Ledger) (sid : ℕ) (e : ℚ) : Ledger :=
  { st with statements := st.statements.map fun s =>
      if s.id == sid then { s with balanceEndReal := some e } else s }

/-- Record a successful `button_post` on statement `sid`. -/
def setPosted (st : Ledger) (sid : ℕ) : Ledger :=
  { st with statements := st.statements.map fun s =>
      if s.id == sid then { s with posted := true } else s }

/-- `closeStatementIfNeeded(statementId, dryRun)`: read the statement; if
`balance_end_real` is unset, compute `+(start + sumLines).toFixed(2)` and
(unless dry-run) persist it; then attempt `button_post`, whose failure is
caught and treated as a no-op. -/
def closeStatementIfNeeded (env : Env) (dryRun : Bool) (st : Ledger) (sid : ℕ) : Ledger :=
  match st.statements.find? (fun s => s.id == sid) with
  | none => st
  | some s =>
    let start := s.balanceStart.getD 0
    let st1 :=
      match s.balanceEndReal with
      | some _ => st
      | none =>
        if dryRun then st
        else setBalanceEnd st sid (round2 (start + sumStatementLineAmounts st sid))
    if dryRun then st1
    else if env.postOk sid then setPosted st1 sid else st1

/-- Match of `^Feed (\d{4}-\d{2})$` on the statement month part. -/
def isFeedMonthChars : List Char → Bool
  | [a, b, c, d, e, f, g] =>
    a.isDigit && b.isDigit && c.isDigit && d.isDigit && e == '-' && f.isDigit && g.isDigit
  | _ => false

/-- Extract the month key from a statement named `Feed YYYY-MM`
(`^Feed (\d{4}-\d{2})$`), else `none`. -/
def feedMonth (name : String) : Option String :=
  match name.data with
  | 'F' :: 'e' :: 'e' :: 'd' :: ' ' :: rest =>
    if isFeedMonthChars rest then some ⟨rest⟩ else none
  | _ => none

/-- `closeAllPastMonthlyStatements(journalId, currentMonthKey, dryRun)`:
iterate the journal's statements (snapshot taken up front), closing every
`Feed YYYY-MM` statement whose month is lexicographically before the
current month key. -/
def closeAllPastMonthlyStatements (env : Env) (dryRun : Bool) (st : Ledger)
    (journalId : ℕ) (currentMonthKey : String) (tr : List Decision) :
    Ledger × List Decision :=
  (st.statements.filter fun s => s.journalId == journalId).foldl
    (fun acc s =>
      match feedMonth s.name with
      | none => acc
      | some m =>
        if jsStrLt m currentMonthKey then
          (closeStatementIfNeeded env dryRun acc.1 s.id, acc.2 ++ [.sweepClose s.name])
        else acc)
    (st, tr)

/-- The statement line built for one transfer event: reference
`hash:transactionIndex:tokenAddress`, amount `formatUnits(BigInt(value), 18)`,
description from the hash prefix, and `unique_import_id = hash.trim()` when
that is non-empty. -/
def mkLine (tokenAddress : String) (stId : ℕ) (r : TransferEvent) : LineRec :=
  { statementId := stId
    date := r.date
    paymentRef := r.hash ++ ":" ++ r.transactionIndex ++ ":" ++ tokenAddress
    amount := formatUnits r.value 18
    name := "Blockchain tx " ++ r.hash.take 10
    uniqueImportId := if jsTrim r.hash == "" then none else some (jsTrim r.hash) }

/-- Does the ledger already hold a line with `unique_import_id = u`? -/
def hasUid (st : Ledger) (u : String) : Bool :=
  st.lines.any fun l => l.uniqueImportId == some u

/-- Create one statement line (dry-run only logs). -/
def createLine (env : Env) (dryRun : Bool) (st : Ledger) (tr : List Decision) (l : LineRec) :
    Except String (Ledger × List Decision) :=
  if dryRun then .ok (st, tr ++ [.createLine l.paymentRef])
  else if env.lineCreateOk l.paymentRef then
    .ok ({ st with lines := st.lines ++ [l] }, tr ++ [.createLine l.paymentRef])
  else .error "create statement line failed"

/-- The partner-enrichment block guarded by `!partnerId && partnerBankId
&& !dryRun`: read the bank account's partner and, if it lacks the
receivable/payable properties, write the journal's defaults onto it. -/
def enrichPartnerFromBank (st : Ledger) (bid : ℕ) : Ledger :=
  match st.banks.find? (fun b => b.id == bid) with
  | none => st
  | some b =>
    if b.partnerId == 0 then st
    else
      match st.partners.find? (fun p => p.id == b.partnerId) with
      | none => st
      | some p =>
        if p.hasReceivable && p.hasPayable then st
        else
          { st with partners := st.partners.map fun q =>
              if q.id == b.partnerId then { q with hasReceivable := true, hasPayable := true } else q }

/-- One iteration of the per-event loop: resolve the counterparty bank
account (the local `partnerId` is 0 at this point), run the enrichment
block, then the dedup check on `unique_import_id` and the line creation. -/
def importEvent (env : Env) (dryRun : Bool) (wallet tokenAddress : String) (stId : ℕ)
    (acc : Ledger × List Decision) (r : TransferEvent) :
    Except String (Ledger × List Decision) :=
  let partnerAddress := if r.fromAddr == wallet then r.toAddr else r.fromAddr
  match findOrCreatePartnerBank env dryRun acc.1 0 (jsToLower partnerAddress) with
  | .error e => .error e
  | .ok (partnerBankId, st1) =>
    let st2 := if partnerBankId != 0 && !dryRun then enrichPartnerFromBank st1 partnerBankId else st1
    if jsTrim r.hash != "" && hasUid st2 (jsTrim r.hash) then
      .ok (st2, acc.2 ++ [.skipDup (jsTrim r.hash)])
    else
      createLine env dryRun st2 acc.2 (mkLine tokenAddress stId r)

/-- The per-event loop over one month's group. -/
def importEventList (env : Env) (dryRun : Bool) (wallet tokenAddress : String) (stId : ℕ)
    (acc : Ledger × List Decision) (items : List TransferEvent) :
    Except String (Ledger × List Decision) :=
  items.foldlM (importEvent env dryRun wallet tokenAddress stId) acc

/-- Processing of one month group: obtain or create its statement, import
its events, then close the statement when the month is before the current
month key. -/
def importMonthGroup (env : Env) (dryRun : Bool) (wallet tokenAddress : String)
    (journalId : ℕ) (currentMonthKey : String)
    (acc : Ledger × List Decision) (g : String × List TransferEvent) :
    Except String (Ledger × List Decision) :=
  let (stId, st) := getOrCreateMonthlyStatement dryRun acc.1 journalId g.1
  match importEventList env dryRun wallet tokenAddress stId (st, acc.2) g.2 with
  | .error e => .error e
  | .ok (st2, tr2) =>
    if jsStrLt g.1 currentMonthKey then
      .ok (closeStatementIfNeeded env dryRun st2 stId, tr2 ++ [.closeMonth g.1])
    else
      .ok (st2, tr2 ++ [.keepOpen g.1])

/-- Insertion-ordered grouping (a JS `Map` keyed by month). -/
def insertByMonth : List (String × List TransferEvent) → String → TransferEvent →
    List (String × List TransferEvent)
  | [], mk, e => [(mk, [e])]
  | (k, es) :: rest, mk, e =>
    if k == mk then (k, es ++ [e]) :: rest else (k, es) :: insertByMonth rest mk e

/-- Group the fetched transfers by `monthKeyFromISO` of their dates. -/
def groupByMonth (evs : List TransferEvent) : List (String × List TransferEvent) :=
  evs.foldl (fun acc r => insertByMonth acc (monthKeyFromISO r.date) r) []

/-- The whole import run of `main()` after authentication and the journal
pre-flight checks: group by month, process each month group, then sweep
all past monthly statements of the journal. -/
def runImport (env : Env) (dryRun : Bool) (wallet tokenAddress : String)
    (journalId : ℕ) (currentMonthKey : String)
    (st0 : Ledger) (transfers : List TransferEvent) :
    Except String (Ledger × List Decision) :=
  match (groupByMonth transfers).foldlM
      (importMonthGroup env dryRun wallet tokenAddress journalId currentMonthKey) (st0, []) with
  | .error e => .error e
  | .ok (st, tr) => .ok (closeAllPastMonthlyStatements env dryRun st journalId currentMonthKey tr)

/-! ### Derived predicates used by the verification -/

/-- Pointwise equality of two character lists up to letter case
(`toLowerCase` agreement), used to state that two raw identifiers differ
only in letter case. -/
def listCaseEq : List Char → List Char → Bool
  | [], [] => true
  | c :: cs, d :: ds => c.toLower == d.toLower && listCaseEq cs ds
  | _, _ => false

/-- The `unique_import_id` values present on the ledger's lines. -/
def uidList (st : Ledger) : List String := st.lines.filterMap (·.uniqueImportId)

/-- No two ledger lines carry the same `unique_import_id`. -/
def UidsNodup (st : Ledger) : Prop := (uidList st).Nodup

/-- Bool test that an `Except` is an error. -/
def isError {α : Type} : Except String α → Bool
  | .error _ => true
  | .ok _ => false

/-- The transfer list carried by a response's `result` field
(`Array.isArray(result) ? result : []`). -/
def resultList : EtherscanResult → List TransferEvent
  | .arr xs => xs
  | .str _ => []

/-! ### Helper lemmas: characters -/

theorem char_eq_iff_toNat {a b : Char} : a = b ↔ a.toNat = b.toNat := by
  constructor
  · intro h; rw [h]
  · intro h
    exact Char.eq_of_val_eq (UInt32.ext h)

theorem char_toNat_ofNat_valid (n : ℕ) (h : n < 55296) : (Char.ofNat n).toNat = n := by
  have hv : n.isValidChar := Or.inl h
  rw [Char.ofNat, dif_pos hv]
  simp [Char.ofNatAux, Char.toNat, UInt32.toNat]

theorem toUpper_toNat (c : Char) :
    c.toUpper.toNat = if c.toNat ≥ 97 ∧ c.toNat ≤ 122 then c.toNat - 32 else c.toNat := by
  show (if c.toNat ≥ 97 ∧ c.toNat ≤ 122 then Char.ofNat (c.toNat - 32) else c).toNat = _
  split_ifs with h
  · rw [char_toNat_ofNat_valid]; omega
  · rfl

theorem toLower_toNat (c : Char) :
    c.toLower.toNat = if c.toNat ≥ 65 ∧ c.toNat ≤ 90 then c.toNat + 32 else c.toNat := by
  show (if c.toNat ≥ 65 ∧ c.toNat ≤ 90 then Char.ofNat (c.toNat + 32) else c).toNat = _
  split_ifs with h
  · rw [char_toNat_ofNat_valid]; omega
  · rfl

theorem isWhitespace_iff (c : Char) :
    c.isWhitespace = true ↔ (c.toNat = 32 ∨ c.toNat = 9 ∨ c.toNat = 13 ∨ c.toNat = 10) := by
  have h32 : (' ' : Char).toNat = 32 := rfl
  have h9 : ('\t' : Char).toNat = 9 := rfl
  have h13 : ('\x0d' : Char).toNat = 13 := rfl
  have h10 : ('\n' : Char).toNat = 10 := rfl
  simp only [Char.isWhitespace, Bool.or_eq_true, decide_eq_true_eq, char_eq_iff_toNat,
    h32, h9, h13, h10]
  tauto

theorem isWhitespace_toUpper (c : Char) : c.toUpper.isWhitespace = c.isWhitespace := by
  by_cases h : c.isWhitespace = true
  · have hn := (isWhitespace_iff c).mp h
    have : c.toUpper = c := by
      rw [char_eq_iff_toNat, toUpper_toNat]
      split <;> omega
    rw [this]
  · have hn : ¬(c.toNat = 32 ∨ c.toNat = 9 ∨ c.toNat = 13 ∨ c.toNat = 10) :=
      fun hw => h ((isWhitespace_iff c).mpr hw)
    have hu : ¬(c.toUpper.toNat = 32 ∨ c.toUpper.toNat = 9 ∨ c.toUpper.toNat = 13 ∨
        c.toUpper.toNat = 10) := by
      rw [toUpper_toNat]
      split <;> omega
    rcases hb : c.toUpper.isWhitespace with _ | _
    · rcases hc : c.isWhitespace with _ | _
      · rfl
      · exact absurd hc h
    · exact absurd ((isWhitespace_iff _).mp hb) hu

theorem toUpper_toUpper (c : Char) : c.toUpper.toUpper = c.toUpper := by
  rw [char_eq_iff_toNat, toUpper_toNat c.toUpper, toUpper_toNat c]
  split_ifs <;> omega

theorem toUpper_eq_of_toLower_eq {a b : Char} (h : a.toLower = b.toLower) :
    a.toUpper = b.toUpper := by
  rw [char_eq_iff_toNat] at h ⊢
  rw [toLower_toNat, toLower_toNat] at h
  rw [toUpper_toNat, toUpper_toNat]
  split_ifs at h ⊢ <;> omega

/-! ### Helper lemmas: rounding -/

theorem floor_intCast_add_half (v : ℤ) : ⌊(v : ℚ) + 1/2⌋ = v := by
  rw [add_comm, Int.floor_add_int]
  norm_num

theorem round2_div100 (k : ℤ) : round2 ((k : ℚ) / 100) = (k : ℚ) / 100 := by
  unfold round2
  rw [div_mul_cancel₀ _ (by norm_num : (100 : ℚ) ≠ 0), floor_intCast_add_half]

theorem round2_intShift (k : ℤ) (x : ℚ) :
    round2 ((k : ℚ) / 100 + x) = (k : ℚ) / 100 + round2 x := by
  unfold round2
  have hsh : ((k : ℚ) / 100 + x) * 100 + 1/2 = x * 100 + 1/2 + (k : ℚ) := by ring
  rw [hsh, Int.floor_add_int]
  push_cast
  ring

theorem round2_round2 (x : ℚ) : round2 (round2 x) = round2 x := by
  unfold round2
  rw [div_mul_cancel₀ _ (by norm_num : (100 : ℚ) ≠ 0), floor_intCast_add_half]

/-! ### C8 -/

theorem rndEven_intCast (m : ℤ) : rndEven (m : ℚ) = m := by
  unfold rndEven
  rw [Int.floor_intCast]
  norm_num

theorem rndEven_err (y : ℚ) : |(rndEven y : ℚ) - y| ≤ 1/2 := by
  have h0 : (⌊y⌋ : ℚ) ≤ y := Int.floor_le y
  have h1 : y < ⌊y⌋ + 1 := Int.lt_floor_add_one y
  unfold rndEven
  split_ifs with ha hb hc
  · rw [abs_sub_comm, abs_of_nonneg (by linarith)]
    linarith
  · push_cast
    rw [abs_of_nonneg (by linarith)]
    linarith
  · rw [abs_sub_comm, abs_of_nonneg (by linarith)]
    linarith
  · push_cast
    rw [abs_of_nonneg (by linarith)]
    linarith

theorem dbl_log_eq {q : ℚ} (hq : 0 < q) {e : ℤ}
    (hlo : (2:ℚ)^e ≤ q) (hhi : q < (2:ℚ)^(e+1)) : Int.log 2 q = e := by
  have h1 : e ≤ Int.log 2 q :=
    (Int.zpow_le_iff_le_log (by norm_num) hq).mp (by exact_mod_cast hlo)
  have h2 : Int.log 2 q < e + 1 :=
    (Int.lt_zpow_iff_log_lt (by norm_num) hq).mp (by exact_mod_cast hhi)
  omega

theorem dblRound_eq_of (q : ℚ) (hq : 0 < q) (e : ℤ)
    (hlo : (2:ℚ)^e ≤ q) (hhi : q < (2:ℚ)^(e+1)) (m : ℤ)
    (hrnd : rndEven (q / 2^(e-52)) = m) : dblRound q = m * 2^(e-52) := by
  have hlog : Int.log 2 q = e := dbl_log_eq hq hlo hhi
  unfold dblRound
  rw [if_neg (ne_of_gt hq), abs_of_pos hq, hlog, if_neg (not_lt.mpr (le_of_lt hq)), hrnd]
  ring

theorem dblRound_exact (q : ℚ) (hq : 0 < q) (m : ℤ)
    (hm : (m : ℚ) * 2 ^ (Int.log 2 q - 52) = q) : dblRound q = q := by
  have hup : (0:ℚ) < 2^(Int.log 2 q - 52) := zpow_pos (by norm_num) _
  have hy : q / 2^(Int.log 2 q - 52) = (m:ℚ) := (div_eq_iff (ne_of_gt hup)).mpr hm.symm
  unfold dblRound
  rw [if_neg (ne_of_gt hq), abs_of_pos hq, if_neg (not_lt.mpr (le_of_lt hq)), hy,
    rndEven_intCast, one_mul, hm]

theorem dblRound_neg (q : ℚ) : dblRound (-q) = -dblRound q := by
  by_cases h0 : q = 0
  · subst h0; simp [dblRound]
  · unfold dblRound
    rw [if_neg (neg_ne_zero.mpr h0), if_neg h0, abs_neg]
    rcases lt_or_gt_of_ne h0 with h | h
    · rw [if_neg (not_lt.mpr (by linarith : (0:ℚ) ≤ -q)), if_pos h]
      ring
    · rw [if_pos (by linarith : -q < 0), if_neg (not_lt.mpr (le_of_lt h))]
      ring

theorem dblRound_err_pos (r : ℚ) (hr : 0 < r) : |dblRound r - r| ≤ r / 2^(53:ℕ) := by
  have hlo : (2:ℚ)^(Int.log 2 r) ≤ r := by
    have h : ((2:ℕ):ℚ)^(Int.log 2 r) ≤ r := Int.zpow_log_le_self (by norm_num) hr
    exact_mod_cast h
  have hup : (0:ℚ) < 2^(Int.log 2 r - 52) := zpow_pos (by norm_num) _
  have hbody : dblRound r = (rndEven (r / 2^(Int.log 2 r - 52)) : ℚ) * 2^(Int.log 2 r - 52) := by
    unfold dblRound
    rw [if_neg (ne_of_gt hr), abs_of_pos hr, if_neg (not_lt.mpr (le_of_lt hr)), one_mul]
  have herr1 : |(rndEven (r / 2^(Int.log 2 r - 52)) : ℚ) - r / 2^(Int.log 2 r - 52)| ≤ 1/2 :=
    rndEven_err _
  have hcalc : |dblRound r - r|
      = |(rndEven (r / 2^(Int.log 2 r - 52)) : ℚ) - r / 2^(Int.log 2 r - 52)|
          * 2^(Int.log 2 r - 52) := by
    rw [hbody]
    have h5 : (rndEven (r / 2^(Int.log 2 r - 52)) : ℚ) * 2^(Int.log 2 r - 52) - r
        = ((rndEven (r / 2^(Int.log 2 r - 52)) : ℚ) - r / 2^(Int.log 2 r - 52))
            * 2^(Int.log 2 r - 52) := by
      field_simp
    rw [h5, abs_mul, abs_of_pos hup]
  rw [hcalc]
  have h2 : |(rndEven (r / 2^(Int.log 2 r - 52)) : ℚ) - r / 2^(Int.log 2 r - 52)|
      * 2^(Int.log 2 r - 52) ≤ (1/2) * 2^(Int.log 2 r - 52) :=
    mul_le_mul_of_nonneg_right herr1 (le_of_lt hup)
  have h4 : (2:ℚ)^(Int.log 2 r - 52) * 2^(53:ℕ) = 2 * 2^(Int.log 2 r) := by
    rw [← zpow_natCast (2:ℚ) 53, ← zpow_add₀ (by norm_num : (2:ℚ) ≠ 0),
      show Int.log 2 r - 52 + (53:ℕ) = Int.log 2 r + 1 by push_cast; ring,
      zpow_add₀ (by norm_num : (2:ℚ) ≠ 0), zpow_one]
    ring
  have h3 : (1/2) * (2:ℚ)^(Int.log 2 r - 52) ≤ r / 2^(53:ℕ) := by
    rw [le_div_iff₀ (by norm_num : (0:ℚ) < 2^(53:ℕ))]
    calc (1/2) * (2:ℚ)^(Int.log 2 r - 52) * 2^(53:ℕ)
        = (1/2) * ((2:ℚ)^(Int.log 2 r - 52) * 2^(53:ℕ)) := by ring
      _ = (1/2) * (2 * 2^(Int.log 2 r)) := by rw [h4]
      _ = 2^(Int.log 2 r) := by ring
      _ ≤ r := hlo
  linarith

theorem dblRound_err (q : ℚ) : |dblRound q - q| ≤ |q| / 2^(53:ℕ) := by
  rcases lt_trichotomy q 0 with h | h | h
  · have hp := dblRound_err_pos (-q) (by linarith)
    rw [dblRound_neg] at hp
    rw [abs_of_neg h]
    calc |dblRound q - q| = |(-(dblRound q)) - (-q)| := by rw [← abs_neg]; ring_nf
      _ ≤ (-q) / 2^(53:ℕ) := hp
  · subst h; simp [dblRound]
  · have hp := dblRound_err_pos q h
    rwa [abs_of_pos h]

theorem dblRound_int_small (v : ℤ) (h0 : 0 ≤ v) (hsm : v < 2^52) : dblRound (v:ℚ) = v := by
  rcases h0.eq_or_lt with h | h
  · rw [← h]
    simp [dblRound]
  · have hvq : (0:ℚ) < (v:ℚ) := by exact_mod_cast h
    have he52 : Int.log 2 ((v:ℚ)) ≤ 51 := by
      have hv2 : (v:ℚ) < ((2:ℕ):ℚ)^((52:ℤ)) := by
        have hc : (v:ℚ) < 2^(52:ℕ) := by exact_mod_cast hsm
        exact_mod_cast hc
      have := (Int.lt_zpow_iff_log_lt (by norm_num) hvq).mp hv2
      omega
    apply dblRound_exact (v:ℚ) hvq (v * 2^((52 - Int.log 2 ((v:ℚ))).toNat))
    push_cast
    rw [← zpow_natCast (2:ℚ) ((52 - Int.log 2 ((v:ℚ))).toNat),
      Int.toNat_of_nonneg (by omega : (0:ℤ) ≤ 52 - Int.log 2 ((v:ℚ))),
      mul_assoc, ← zpow_add₀ (by norm_num : (2:ℚ) ≠ 0),
      show 52 - Int.log 2 ((v:ℚ)) + (Int.log 2 ((v:ℚ)) - 52) = 0 by ring,
      zpow_zero, mul_one]

theorem pow10_exact (d : ℕ) (hd : d ≤ 22) : dblRound ((10:ℚ)^d) = (10:ℚ)^d := by
  have hq : (0:ℚ) < 10^d := by positivity
  have hupp : (10:ℚ)^d < ((2:ℕ):ℚ)^((d:ℤ) + 53) := by
    have h5 : (5:ℚ)^d ≤ 5^22 := pow_le_pow_right₀ (by norm_num) hd
    have h53 : (5:ℚ)^d < 2^(53:ℕ) := lt_of_le_of_lt h5 (by norm_num)
    have h10 : (10:ℚ)^d = 2^d * 5^d := by rw [← mul_pow]; norm_num
    have hbridge : (2:ℚ)^d * (2:ℚ)^(53:ℕ) = (2:ℚ)^((d:ℤ) + 53) := by
      rw [← pow_add, ← zpow_natCast (2:ℚ) (d + 53)]
      norm_cast
    have hstep : (10:ℚ)^d < (2:ℚ)^((d:ℤ) + 53) := by
      calc (10:ℚ)^d = 2^d * 5^d := h10
        _ < 2^d * 2^(53:ℕ) := by
            apply mul_lt_mul_of_pos_left h53 (by positivity)
        _ = (2:ℚ)^((d:ℤ) + 53) := hbridge
    exact_mod_cast hstep
  have hed : Int.log 2 ((10:ℚ)^d) ≤ (d:ℤ) + 52 := by
    have := (Int.lt_zpow_iff_log_lt (by norm_num) hq).mp hupp
    omega
  apply dblRound_exact ((10:ℚ)^d) hq (5^d * 2^(((d:ℤ) + 52 - Int.log 2 ((10:ℚ)^d)).toNat))
  push_cast
  rw [← zpow_natCast (2:ℚ) (((d:ℤ) + 52 - Int.log 2 ((10:ℚ)^d)).toNat),
    Int.toNat_of_nonneg (by omega : (0:ℤ) ≤ (d:ℤ) + 52 - Int.log 2 ((10:ℚ)^d)),
    mul_assoc, ← zpow_add₀ (by norm_num : (2:ℚ) ≠ 0),
    show (d:ℤ) + 52 - Int.log 2 ((10:ℚ)^d) + (Int.log 2 ((10:ℚ)^d) - 52) = (d:ℤ) by ring,
    zpow_natCast]
  rw [mul_comm ((5:ℚ)^d), ← mul_pow]
  norm_num

/-- C8 counterexample: the raw value `10^18 + 1` (exactly representable at
18 decimal places) does NOT survive the decode/encode round trip:
`Number(10^18 + 1)` collapses to the nearest double `10^18`, the decode
yields exactly `1`, and re-encoding returns `10^18 ≠ 10^18 + 1`. -/
theorem C8_counterexample :
    formatTokenAmount (10^18 + 1) 18 = 1 ∧
    parseTokenAmount (formatTokenAmount (10^18 + 1) 18) 18 = .ok (10^18) ∧
    (10^18 : ℤ) ≠ 10^18 + 1 := by
  have h7 : ((2:ℚ)^((59:ℤ)-52)) = 128 := by norm_num
  have hfl : ⌊((10:ℚ)^18 + 1) / 2^((59:ℤ)-52)⌋ = 7812500000000000 := by
    rw [h7, Int.floor_eq_iff]
    norm_num
  have hrnd : rndEven (((10:ℚ)^18 + 1) / 2^((59:ℤ)-52)) = 7812500000000000 := by
    unfold rndEven
    rw [hfl, h7]
    norm_num
  have hnum : dblRound ((10:ℚ)^18 + 1) = (10:ℚ)^18 := by
    have := dblRound_eq_of ((10:ℚ)^18 + 1) (by norm_num) 59 (by norm_num) (by norm_num)
      7812500000000000 hrnd
    rw [this, h7]
    norm_num
  have hfmt : formatTokenAmount (10^18 + 1) 18 = 1 := by
    unfold formatTokenAmount
    rw [show (((10:ℤ)^18 + 1 : ℤ) : ℚ) = (10:ℚ)^18 + 1 by push_cast; ring]
    rw [hnum, pow10_exact 18 (by norm_num), div_self (by positivity : ((10:ℚ)^18) ≠ 0)]
    simpa using pow10_exact 0 (by norm_num)
  refine ⟨hfmt, ?_, by norm_num⟩
  rw [hfmt]
  unfold parseTokenAmount
  rw [if_neg (by norm_num), if_neg (by norm_num), if_neg (by norm_num), one_mul]
  congr 1
  rw [Int.floor_eq_iff]
  norm_num

/-- C8 amended: under the binary64 model of the conversion helpers, the two
concrete decode equalities hold; the decode/encode round trip is the
identity for every raw value below `2^52` (where the BigInt→double
conversion is exact and the division's rounding error stays below half a
raw unit) with token decimals `d ≤ 22` (where `10 ** d` is an exact
double); and for decoded magnitudes `≥ 10^21` the encoder throws
(`toFixed` produces exponential notation, which `BigInt` rejects).  For
larger raw values the round trip fails (see the counterexample). -/
theorem C8_decimalRoundTrip :
    formatTokenAmount 1000000000000000000 18 = 1 ∧
    formatTokenAmount 100000000 6 = 100 ∧
    (∀ v : ℤ, 0 ≤ v → v < 2^52 → ∀ d : ℕ, d ≤ 22 →
      parseTokenAmount (formatTokenAmount v d) d = .ok v) ∧
    (∀ (q : ℚ) (d : ℕ), d ≤ 100 → 10^21 ≤ |q| →
      parseTokenAmount q d = .error "Cannot convert exponential notation to a BigInt") := by
  refine ⟨?_, ?_, ?_, ?_⟩
  · unfold formatTokenAmount
    rw [show ((1000000000000000000 : ℤ) : ℚ) = (10:ℚ)^18 by norm_num]
    rw [pow10_exact 18 (by norm_num), div_self (by positivity : ((10:ℚ)^18) ≠ 0)]
    simpa using pow10_exact 0 (by norm_num)
  · unfold formatTokenAmount
    rw [show ((100000000 : ℤ) : ℚ) = (10:ℚ)^8 by norm_num]
    rw [pow10_exact 8 (by norm_num), pow10_exact 6 (by norm_num)]
    rw [show ((10:ℚ)^8 / 10^6) = (10:ℚ)^2 by norm_num]
    simpa using pow10_exact 2 (by norm_num)
  · intro v h0 hsm d hd
    have hff : formatTokenAmount v d = dblRound ((v:ℚ) / 10^d) := by
      unfold formatTokenAmount
      rw [dblRound_int_small v h0 hsm, pow10_exact d hd]
    rw [hff]
    have hvq : (0:ℚ) ≤ (v:ℚ) := by exact_mod_cast h0
    have hvlt : (v:ℚ) < 2^(52:ℕ) := by exact_mod_cast hsm
    have hx0 : (0:ℚ) ≤ (v:ℚ) / 10^d := by positivity
    have herr : |dblRound ((v:ℚ) / 10^d) - (v:ℚ) / 10^d| ≤ ((v:ℚ) / 10^d) / 2^(53:ℕ) := by
      have h := dblRound_err ((v:ℚ) / 10^d)
      rwa [abs_of_nonneg hx0] at h
    obtain ⟨he1, he2⟩ := abs_le.mp herr
    have hxle : (v:ℚ) / 10^d ≤ (v:ℚ) := div_le_self hvq (one_le_pow₀ (by norm_num))
    have hdivle : ((v:ℚ) / 10^d) / 2^(53:ℕ) ≤ (v:ℚ) / 10^d :=
      div_le_self hx0 (by norm_num)
    have hD0 : (0:ℚ) ≤ dblRound ((v:ℚ) / 10^d) := by linarith
    have hDle : dblRound ((v:ℚ) / 10^d) ≤ 2^(53:ℕ) := by
      have h2 : (2:ℚ)^(53:ℕ) = 2 * 2^(52:ℕ) := by rw [pow_succ]; ring
      linarith
    unfold parseTokenAmount
    rw [if_neg (by omega : ¬ 100 < d)]
    rw [if_neg (by
      rw [abs_of_nonneg hD0]
      have hbig : (2:ℚ)^(53:ℕ) < 10^21 := by norm_num
      intro hcon
      linarith)]
    rw [if_neg (not_lt.mpr hD0), one_mul, abs_of_nonneg hD0]
    congr 1
    have hxv : (v:ℚ) / 10^d * 10^d = (v:ℚ) := by field_simp
    have hscaled : |dblRound ((v:ℚ) / 10^d) * 10^d - (v:ℚ)| < 1/2 := by
      have heq : dblRound ((v:ℚ) / 10^d) * 10^d - (v:ℚ)
          = (dblRound ((v:ℚ) / 10^d) - (v:ℚ) / 10^d) * 10^d := by
        rw [sub_mul, hxv]
      rw [heq, abs_mul, abs_of_nonneg (by positivity : (0:ℚ) ≤ (10:ℚ)^d)]
      have h1 : |dblRound ((v:ℚ) / 10^d) - (v:ℚ) / 10^d| * 10^d
          ≤ (((v:ℚ) / 10^d) / 2^(53:ℕ)) * 10^d :=
        mul_le_mul_of_nonneg_right herr (by positivity)
      have h2 : (((v:ℚ) / 10^d) / 2^(53:ℕ)) * 10^d = (v:ℚ) / 2^(53:ℕ) := by
        field_simp
        ring
      have h3 : (v:ℚ) / 2^(53:ℕ) < 1/2 := by
        rw [div_lt_div_iff₀ (by norm_num) (by norm_num)]
        have h4 : (2:ℚ)^(53:ℕ) = 2^(52:ℕ) * 2 := by rw [pow_succ]
        linarith
      linarith
    obtain ⟨ha, hb⟩ := abs_lt.mp hscaled
    rw [Int.floor_eq_iff]
    constructor
    · linarith
    · linarith
  · intro q d hd hq
    unfold parseTokenAmount
    rw [if_neg (by omega : ¬ 100 < d), if_pos hq]

/-- Witness for C8: the round trip recovers `v = 123456` at `d = 6`, and a
decoded magnitude of `10^21` makes the encoder throw. -/
theorem C8_decimalRoundTrip_witness :
    parseTokenAmount (formatTokenAmount 123456 6) 6 = .ok 123456 ∧
    parseTokenAmount ((10:ℚ)^21) 18
      = .error "Cannot convert exponential notation to a BigInt" :=
  ⟨C8_decimalRoundTrip.2.2.1 123456 (by norm_num) (by norm_num) 6 (by norm_num),
    C8_decimalRoundTrip.2.2.2 ((10:ℚ)^21) 18 (by norm_num) (by norm_num)⟩

/-! ### C10 -/

theorem stripWs_data (s : String) : (stripWs s).data = s.data.filter fun c => !c.isWhitespace :=
  rfl

theorem normalizeAcc_data (s : String) :
    (normalizeAcc s).data = (s.data.filter fun c => !c.isWhitespace).map Char.toUpper :=
  rfl

theorem map_toUpper_of_listCaseEq :
    ∀ l₁ l₂ : List Char, listCaseEq l₁ l₂ = true →
      l₁.map Char.toUpper = l₂.map Char.toUpper
  | [], [], _ => rfl
  | c :: cs, d :: ds, h => by
    simp only [listCaseEq, Bool.and_eq_true, beq_iff_eq] at h
    simp only [List.map_cons]
    rw [toUpper_eq_of_toLower_eq h.1, map_toUpper_of_listCaseEq cs ds h.2]
  | [], _ :: _, h => by simp [listCaseEq] at h
  | _ :: _, [], h => by simp [listCaseEq] at h

theorem not_ws_toUpper (c : Char) : (!c.toUpper.isWhitespace) = (!c.isWhitespace) := by
  rw [isWhitespace_toUpper]

/-- C10: the counterparty-identifier normalisation (strip whitespace, then
uppercase) is idempotent; two raw identifiers whose whitespace-stripped
characters agree up to letter case normalise to the same lookup key; and
the variant in server.ts (`toUpperCase` before the strip) computes the
same function. -/
theorem C10_normalizeIdempotent :
    (∀ s, normalizeAcc (normalizeAcc s) = normalizeAcc s) ∧
    (∀ s₁ s₂, listCaseEq (stripWs s₁).data (stripWs s₂).data = true →
      normalizeAcc s₁ = normalizeAcc s₂) ∧
    (∀ s, normalizeIban s = normalizeAcc s) := by
  refine ⟨?_, ?_, ?_⟩
  · intro s
    apply String.ext
    rw [normalizeAcc_data, normalizeAcc_data s, List.filter_map]
    have hfc : List.filter ((fun c => !c.isWhitespace) ∘ Char.toUpper)
        (s.data.filter fun c => !c.isWhitespace)
        = List.filter (fun c => !c.isWhitespace) (s.data.filter fun c => !c.isWhitespace) :=
      List.filter_congr fun x _ => not_ws_toUpper x
    rw [hfc, List.filter_filter]
    have hff : List.filter (fun a => (!a.isWhitespace) && !a.isWhitespace) s.data
        = List.filter (fun c => !c.isWhitespace) s.data :=
      List.filter_congr fun x _ => by cases x.isWhitespace <;> rfl
    rw [hff, List.map_map]
    exact List.map_congr_left fun c _ => toUpper_toUpper c
  · intro s₁ s₂ h
    apply String.ext
    rw [normalizeAcc_data, normalizeAcc_data, ← stripWs_data, ← stripWs_data]
    exact map_toUpper_of_listCaseEq _ _ h
  · intro s
    apply String.ext
    show List.filter _ (s.data.map Char.toUpper) = _
    rw [List.filter_map, normalizeAcc_data]
    exact congrArg _ (List.filter_congr fun x _ => not_ws_toUpper x)

/-- Witness for C10 at the concrete pair `" 0xAb c"` and `"0xa BC"`. -/
theorem C10_normalizeIdempotent_witness :
    listCaseEq (stripWs " 0xAb c").data (stripWs "0xa BC").data = true ∧
    normalizeAcc " 0xAb c" = normalizeAcc "0xa BC" :=
  ⟨by decide, C10_normalizeIdempotent.2.1 " 0xAb c" "0xa BC" (by decide)⟩

/-! ### C7 -/

/-- C7 counterexample: a failure-status response whose `message` field is
empty (hence not equal to `"No transactions found"`) but whose `result`
string is `"No transactions found"` does not raise: the raised message
contains the phrase, so the catch converts it to an empty list. -/
theorem C7_counterexample :
    getTokenTransfers ⟨true, "", "0", "", .str "No transactions found"⟩ =
        .ok ([] : List TransferEvent) ∧
    ("" : String) ≠ "No transactions found" := by
  exact ⟨rfl, by decide⟩

/-- C7 amended: a `status = "0"` response with message exactly
`"No transactions found"` yields the response's result list (empty for a
non-array result) and is not an error; any other failure-status response
raises `Etherscan API error: ${message || result}` unless that raised
message happens to contain `"No transactions found"` as a substring, in
which case it too is converted to an empty list. -/
theorem C7_fetchErrors :
    (∀ resp : EtherscanResponse, resp.httpOk = true → resp.status = "0" →
      resp.message = "No transactions found" →
      getTokenTransfers resp = .ok (resultList resp.result)) ∧
    (∀ resp : EtherscanResponse, resp.httpOk = true → resp.status = "0" →
      resp.message ≠ "No transactions found" →
      getTokenTransfers resp =
        if containsSub (etherscanErrMsg resp) "No transactions found" then .ok []
        else .error (etherscanErrMsg resp)) := by
  constructor
  · intro resp h1 h2 h3
    unfold getTokenTransfers request
    rw [h1, h2, h3]
    cases hr : resp.result <;> simp [resultList]
  · intro resp h1 h2 h3
    unfold getTokenTransfers request
    rw [h1, h2]
    have hb : (resp.message != "No transactions found") = true := by
      simp [bne_iff_ne, h3]
    simp [hb]

/-- Witness for C7 at a rate-limit style failure response. -/
theorem C7_fetchErrors_witness :
    getTokenTransfers ⟨true, "", "0", "Max rate limit reached", .str "error"⟩ =
      .error "Etherscan API error: Max rate limit reached" :=
  (C7_fetchErrors.2 ⟨true, "", "0", "Max rate limit reached", .str "error"⟩
    rfl rfl (by decide)).trans (by rfl)

/-! ### C6 -/

/-- C6: every modelled ledger-gateway operation derived from the generic
remote-call primitive (search/read, create, post) checks `this.uid` first
and raises `Not authenticated. Call authenticate() first.` without issuing
any remote call when it is unset (or 0); and a successful `authenticate()`
leaves `uid` non-falsy. -/
theorem C6_authGuard :
    (∀ (remote : OdooRemote) (c : OdooClient) (journalId limit : ℕ), uidFalsy c = true →
      getLatestTransactions remote c journalId limit = ([], .error notAuthMsg)) ∧
    (∀ (remote : OdooRemote) (c : OdooClient) (name : String), uidFalsy c = true →
      getPartnerIdByName remote c name = ([], .error notAuthMsg)) ∧
    (∀ (remote : OdooRemote) (c : OdooClient) (name : String), uidFalsy c = true →
      clientCreatePartner remote c name = ([], .error notAuthMsg)) ∧
    (∀ (remote : OdooRemote) (c : OdooClient) (iban : String) (pid : ℕ), uidFalsy c = true →
      clientCreateBankAccount remote c iban pid = ([], .error notAuthMsg)) ∧
    (∀ (remote : OdooRemote) (c : OdooClient) (entry : JournalEntry), uidFalsy c = true →
      createJournalEntry remote c entry = ([], .error notAuthMsg)) ∧
    (∀ (remote : OdooRemote) (c : OdooClient) (moveId : ℕ), uidFalsy c = true →
      postJournalEntry remote c moveId = ([], .error notAuthMsg)) ∧
    (∀ (remote : OdooRemote) (c : OdooClient), (authenticate remote c).2 = true →
      uidFalsy (authenticate remote c).1 = false) := by
  refine ⟨?_, ?_, ?_, ?_, ?_, ?_, ?_⟩
  · intro remote c j l h; simp [getLatestTransactions, h]
  · intro remote c n h; simp [getPartnerIdByName, h]
  · intro remote c n h; simp [clientCreatePartner, h]
  · intro remote c i p h; simp [clientCreateBankAccount, h]
  · intro remote c e h; simp [createJournalEntry, h]
  · intro remote c m h; simp [postJournalEntry, h]
  · intro remote c h
    unfold authenticate at h ⊢
    revert h
    cases hl : remote.login c.config with
    | ok n =>
      intro h
      replace h : (n != 0) = true := h
      have hn : n ≠ 0 := by simpa [bne_iff_ne] using h
      show (n == 0) = false
      simpa using hn
    | error e =>
      intro h
      exact Bool.noConfusion (h : false = true)

/-- Witness for C6: a freshly constructed client (uid = null, real mode)
is rejected by `createPartner` before any remote call. -/
theorem C6_authGuard_witness :
    uidFalsy ⟨⟨"", "", "", ""⟩, none, false⟩ = true ∧
    clientCreatePartner
        ⟨fun _ => .error "", fun _ _ => .error "", fun _ => .error "", fun _ => .error "",
         fun _ _ => .error "", fun _ => .error "", fun _ => .error ""⟩
        ⟨⟨"", "", "", ""⟩, none, false⟩ "Unknown" = ([], .error notAuthMsg) :=
  ⟨rfl, C6_authGuard.2.2.1 _ _ "Unknown" rfl⟩

/-! ### C3 -/

theorem find_statements_update (l : List StatementRec) (sid : ℕ) (f : StatementRec → StatementRec)
    (hf : ∀ s, (f s).id = s.id) :
    (l.map fun s => if s.id == sid then f s else s).find? (fun s => s.id == sid)
      = (l.find? (fun s => s.id == sid)).map fun s => if s.id == sid then f s else s := by
  rw [List.find?_map]
  have hp : ((fun s : StatementRec => s.id == sid) ∘ fun s => if s.id == sid then f s else s)
      = fun s : StatementRec => s.id == sid := by
    funext s
    by_cases h : (s.id == sid) = true
    · simp only [Function.comp, h, if_true, hf, h]
    · simp only [Function.comp]
      rw [Bool.not_eq_true] at h
      rw [h]
      simpa using h
  rw [hp]

theorem find_setBalanceEnd (st : Ledger) (sid : ℕ) (e : ℚ) :
    (setBalanceEnd st sid e).statements.find? (fun x => x.id == sid)
      = (st.statements.find? (fun x => x.id == sid)).map
          fun x => if x.id == sid then { x with balanceEndReal := some e } else x :=
  find_statements_update st.statements sid
    (fun x => { x with balanceEndReal := some e }) (fun x => rfl)

theorem find_setPosted (st : Ledger) (sid : ℕ) :
    (setPosted st sid).statements.find? (fun x => x.id == sid)
      = (st.statements.find? (fun x => x.id == sid)).map
          fun x => if x.id == sid then { x with posted := true } else x :=
  find_statements_update st.statements sid (fun x => { x with posted := true }) (fun x => rfl)

theorem closeStatement_unset_eq (st : Ledger) (sid : ℕ) (s : StatementRec)
    (hfind : st.statements.find? (fun x => x.id == sid) = some s)
    (hnone : s.balanceEndReal = none) :
    closeStatementIfNeeded envOk false st sid
      = setPosted (setBalanceEnd st sid
          (round2 (s.balanceStart.getD 0 + sumStatementLineAmounts st sid))) sid := by
  unfold closeStatementIfNeeded
  split
  · next heq => rw [hfind] at heq; exact Option.noConfusion heq
  · next s2 heq =>
    rw [hfind] at heq
    injection heq with h
    subst h
    rw [hnone]
    rfl

theorem closeStatement_set_eq (st : Ledger) (sid : ℕ) (s : StatementRec) (e : ℚ)
    (hfind : st.statements.find? (fun x => x.id == sid) = some s)
    (hsome : s.balanceEndReal = some e) :
    closeStatementIfNeeded envOk false st sid = setPosted st sid := by
  unfold closeStatementIfNeeded
  split
  · next heq => rw [hfind] at heq; exact Option.noConfusion heq
  · next s2 heq =>
    rw [hfind] at heq
    injection heq with h
    subst h
    rw [hsome]
    rfl

/-- C3 counterexample: a statement with opening balance 0.0049 and a single
line of amount 0.004 is closed with persisted balance 0.00, while
`round2(opening + (sum of line amounts))` is 0.01: the code rounds the line
sum to 2 decimals before adding it to the opening balance. -/
theorem C3_counterexample :
    ((closeStatementIfNeeded envOk false
        ⟨[⟨1, 55, "Feed 2024-01", some (49/10000), none, false⟩],
          [⟨1, "2024-01-05", "ref", 4/1000, "line", none⟩], [], [], 2⟩ 1).statements.map
        (·.balanceEndReal)) = [some 0] ∧
    round2 ((49 : ℚ)/10000 + 4/1000) = 1/100 ∧
    some (0 : ℚ) ≠ some ((1 : ℚ)/100) := by
  refine ⟨?_, by norm_num [round2, Int.floor_eq_iff], by norm_num⟩
  rw [closeStatement_unset_eq
    ⟨[⟨1, 55, "Feed 2024-01", some (49/10000), none, false⟩],
      [⟨1, "2024-01-05", "ref", 4/1000, "line", none⟩], [], [], 2⟩ 1
    ⟨1, 55, "Feed 2024-01", some (49/10000), none, false⟩ rfl rfl]
  norm_num [setPosted, setBalanceEnd, sumStatementLineAmounts, round2, Int.floor_eq_iff]

/-- C3 amended: when the close procedure runs on a statement whose closing
balance is unset, the persisted closing balance is
`round2(opening + round2(Σ line amounts))` — the line sum is itself rounded
to 2 decimal places before the addition (these coincide with the claimed
`round2(opening + Σ)` whenever the opening balance is representable at
2 decimals); the statement is then posted.  A statement whose closing
balance is already set keeps it unchanged and is only posted. -/
theorem C3_closeBalance :
    (∀ (st : Ledger) (sid : ℕ) (s : StatementRec),
      st.statements.find? (fun x => x.id == sid) = some s →
      s.balanceEndReal = none →
      (closeStatementIfNeeded envOk false st sid).statements.find? (fun x => x.id == sid)
        = some { s with
            balanceEndReal := some (round2 (s.balanceStart.getD 0 + sumStatementLineAmounts st sid))
            posted := true }) ∧
    (∀ (st : Ledger) (sid : ℕ) (s : StatementRec) (e : ℚ),
      st.statements.find? (fun x => x.id == sid) = some s →
      s.balanceEndReal = some e →
      (closeStatementIfNeeded envOk false st sid).statements.find? (fun x => x.id == sid)
        = some { s with posted := true }) ∧
    (∀ start lineSum : ℚ, (∃ k : ℤ, start = (k : ℚ) / 100) →
      round2 (start + round2 lineSum) = round2 (start + lineSum)) := by
  refine ⟨?_, ?_, ?_⟩
  · intro st sid s hfind hnone
    rw [closeStatement_unset_eq st sid s hfind hnone, find_setPosted, find_setBalanceEnd, hfind]
    have hs : (s.id == sid) = true := by
      have h := List.find?_some hfind
      exact h
    simp only [Option.map_some', hs, if_true]
  · intro st sid s e hfind hsome
    rw [closeStatement_set_eq st sid s e hfind hsome, find_setPosted, hfind]
    have hs : (s.id == sid) = true := by
      have h := List.find?_some hfind
      exact h
    simp only [Option.map_some', hs, if_true]
  · intro start lineSum hk
    obtain ⟨k, rfl⟩ := hk
    rw [round2_intShift, round2_intShift, round2_round2]

/-- Witness for C3 on a one-statement ledger with unset closing balance. -/
theorem C3_closeBalance_witness :
    (closeStatementIfNeeded envOk false
        ⟨[⟨3, 55, "Feed 2024-03", none, none, false⟩], [], [], [], 4⟩ 3).statements.find?
        (fun x => x.id == 3)
      = some ⟨3, 55, "Feed 2024-03", none,
          some (round2 ((0 : ℚ) + sumStatementLineAmounts
            ⟨[⟨3, 55, "Feed 2024-03", none, none, false⟩], [], [], [], 4⟩ 3)), true⟩ :=
  C3_closeBalance.1 ⟨[⟨3, 55, "Feed 2024-03", none, none, false⟩], [], [], [], 4⟩ 3
    ⟨3, 55, "Feed 2024-03", none, none, false⟩ rfl rfl

/-! ### Pipeline helper lemmas: single operations -/

theorem createPartner_state (env : Env) (dryRun : Bool) (st : Ledger) (name : String)
    {pid : ℕ} {st' : Ledger} (h : createPartner env dryRun st name = .ok (pid, st')) :
    st'.lines = st.lines ∧ st'.statements = st.statements ∧ st'.banks = st.banks ∧
      st.nextId ≤ st'.nextId := by
  unfold createPartner at h
  split at h
  · injection h with h1
    injection h1 with h2 h3
    subst h3
    exact ⟨rfl, rfl, rfl, le_refl _⟩
  · split at h
    · injection h with h1
      injection h1 with h2 h3
      subst h3
      exact ⟨rfl, rfl, rfl, Nat.le_succ _⟩
    · exact Except.noConfusion h

theorem createBankAccount_state (env : Env) (dryRun : Bool) (st : Ledger) (acc : String)
    (pid : ℕ) {bid : ℕ} {st' : Ledger}
    (h : createBankAccount env dryRun st acc pid = .ok (bid, st')) :
    st'.lines = st.lines ∧ st'.statements = st.statements ∧ st.nextId ≤ st'.nextId := by
  unfold createBankAccount at h
  split at h
  · injection h with h1
    injection h1 with h2 h3
    subst h3
    exact ⟨rfl, rfl, le_refl _⟩
  · split at h
    · injection h with h1
      injection h1 with h2 h3
      subst h3
      exact ⟨rfl, rfl, Nat.le_succ _⟩
    · exact Except.noConfusion h

theorem findOrCreatePartnerByName_state (env : Env) (dryRun : Bool) (st : Ledger) (name : String)
    {pid : ℕ} {st' : Ledger} (h : findOrCreatePartnerByName env dryRun st name = .ok (pid, st')) :
    st'.lines = st.lines ∧ st'.statements = st.statements ∧ st'.banks = st.banks ∧
      st.nextId ≤ st'.nextId := by
  unfold findOrCreatePartnerByName at h
  split at h
  · injection h with h1
    injection h1 with h2 h3
    subst h3
    exact ⟨rfl, rfl, rfl, le_refl _⟩
  · split at h
    · injection h with h1
      injection h1 with h2 h3
      subst h3
      exact ⟨rfl, rfl, rfl, le_refl _⟩
    · split at h
      · injection h with h1
        injection h1 with h2 h3
        subst h3
        exact ⟨rfl, rfl, rfl, le_refl _⟩
      · exact createPartner_state env dryRun st name h

theorem findOrCreatePartnerBank_state (env : Env) (dryRun : Bool) (st : Ledger)
    (partnerId : ℕ) (iban : String) {bid : ℕ} {st' : Ledger}
    (h : findOrCreatePartnerBank env dryRun st partnerId iban = .ok (bid, st')) :
    st'.lines = st.lines ∧ st'.statements = st.statements ∧ st.nextId ≤ st'.nextId := by
  unfold findOrCreatePartnerBank at h
  dsimp only at h
  by_cases hacc : (normalizeAcc iban == "") = true
  · rw [if_pos hacc] at h
    injection h with h1
    injection h1 with h2 h3
    subst h3
    exact ⟨rfl, rfl, le_refl _⟩
  · rw [if_neg hacc] at h
    cases hfb : findBankAccountByIdentifier st (normalizeAcc iban) with
    | some b =>
      rw [hfb] at h
      injection h with h1
      injection h1 with h2 h3
      subst h3
      exact ⟨rfl, rfl, le_refl _⟩
    | none =>
      rw [hfb] at h
      by_cases hd : dryRun = true
      · rw [if_pos hd] at h
        injection h with h1
        injection h1 with h2 h3
        subst h3
        exact ⟨rfl, rfl, le_refl _⟩
      · rw [if_neg hd] at h
        by_cases hp : (partnerId != 0) = true
        · rw [if_pos hp] at h
          exact createBankAccount_state env dryRun st _ _ h
        · rw [if_neg hp] at h
          cases hres : findOrCreatePartnerByName env dryRun st "Unknown" with
          | error e => rw [hres] at h; exact Except.noConfusion h
          | ok p =>
            obtain ⟨pid, st1⟩ := p
            rw [hres] at h
            obtain ⟨hl, hs, hb, hn⟩ := findOrCreatePartnerByName_state env dryRun st "Unknown" hres
            obtain ⟨hl2, hs2, hn2⟩ := createBankAccount_state env dryRun st1 _ _ h
            exact ⟨hl2.trans hl, hs2.trans hs, le_trans hn hn2⟩

theorem enrichPartnerFromBank_state (st : Ledger) (bid : ℕ) :
    (enrichPartnerFromBank st bid).lines = st.lines ∧
    (enrichPartnerFromBank st bid).statements = st.statements ∧
    (enrichPartnerFromBank st bid).banks = st.banks ∧
    (enrichPartnerFromBank st bid).nextId = st.nextId := by
  unfold enrichPartnerFromBank
  repeat' split
  all_goals exact ⟨rfl, rfl, rfl, rfl⟩

theorem createLine_state (env : Env) (dryRun : Bool) (st : Ledger) (tr : List Decision)
    (l : LineRec) {st' : Ledger} {tr' : List Decision}
    (h : createLine env dryRun st tr l = .ok (st', tr')) :
    st'.statements = st.statements ∧ st'.banks = st.banks ∧ st'.partners = st.partners ∧
    st'.nextId = st.nextId ∧
    st'.lines = st.lines ++ (if dryRun then [] else [l]) ∧
    tr' = tr ++ [Decision.createLine l.paymentRef] := by
  unfold createLine at h
  split at h
  · next hd =>
    injection h with h1
    injection h1 with h2 h3
    subst h2 h3
    rw [hd]
    exact ⟨rfl, rfl, rfl, rfl, by simp, rfl⟩
  · next hd =>
    split at h
    · injection h with h1
      injection h1 with h2 h3
      subst h2 h3
      rw [Bool.not_eq_true] at hd
      rw [hd]
      exact ⟨rfl, rfl, rfl, rfl, by simp, rfl⟩
    · exact Except.noConfusion h

theorem getOrCreateMonthlyStatement_state (dryRun : Bool) (st : Ledger) (j : ℕ) (mk : String) :
    ((getOrCreateMonthlyStatement dryRun st j mk).2).lines = st.lines ∧
    ((getOrCreateMonthlyStatement dryRun st j mk).2).banks = st.banks ∧
    ((getOrCreateMonthlyStatement dryRun st j mk).2).partners = st.partners ∧
    st.nextId ≤ ((getOrCreateMonthlyStatement dryRun st j mk).2).nextId := by
  unfold getOrCreateMonthlyStatement
  dsimp only
  split
  · exact ⟨rfl, rfl, rfl, le_refl _⟩
  · split
    · exact ⟨rfl, rfl, rfl, le_refl _⟩
    · exact ⟨rfl, rfl, rfl, Nat.le_succ _⟩

theorem closeStatementIfNeeded_state (env : Env) (dryRun : Bool) (st : Ledger) (sid : ℕ) :
    (closeStatementIfNeeded env dryRun st sid).lines = st.lines ∧
    (closeStatementIfNeeded env dryRun st sid).banks = st.banks ∧
    (closeStatementIfNeeded env dryRun st sid).partners = st.partners ∧
    (closeStatementIfNeeded env dryRun st sid).nextId = st.nextId := by
  unfold closeStatementIfNeeded
  dsimp only
  repeat' split
  all_goals exact ⟨rfl, rfl, rfl, rfl⟩

/-- Fold-preservation helper for the sweep and other folds over
ledger-with-trace accumulators. -/
theorem foldl_preserve {α : Type} (f : (Ledger × List Decision) → α → (Ledger × List Decision))
    (P : Ledger → Prop) (hf : ∀ acc a, P acc.1 → P (f acc a).1) :
    ∀ (L : List α) (acc : Ledger × List Decision), P acc.1 → P (L.foldl f acc).1 := by
  intro L
  induction L with
  | nil => intro acc h; exact h
  | cons a L ih => intro acc h; exact ih (f acc a) (hf acc a h)

theorem closeAllPast_state (env : Env) (dryRun : Bool) (st : Ledger) (j : ℕ) (cur : String)
    (tr : List Decision) :
    (closeAllPastMonthlyStatements env dryRun st j cur tr).1.lines = st.lines ∧
    (closeAllPastMonthlyStatements env dryRun st j cur tr).1.banks = st.banks ∧
    (closeAllPastMonthlyStatements env dryRun st j cur tr).1.partners = st.partners ∧
    (closeAllPastMonthlyStatements env dryRun st j cur tr).1.nextId = st.nextId := by
  unfold closeAllPastMonthlyStatements
  apply foldl_preserve _ (fun x => x.lines = st.lines ∧ x.banks = st.banks ∧
    x.partners = st.partners ∧ x.nextId = st.nextId)
  · intro acc a hP
    split
    · exact hP
    · split
      · obtain ⟨h1, h2, h3, h4⟩ := closeStatementIfNeeded_state env dryRun acc.1 a.id
        exact ⟨h1.trans hP.1, h2.trans hP.2.1, h3.trans hP.2.2.1, h4.trans hP.2.2.2⟩
      · exact hP
  · exact ⟨rfl, rfl, rfl, rfl⟩

/-! ### Pipeline helper lemmas: unique import ids -/

theorem hasUid_eq_of_lines {st st' : Ledger} (h : st'.lines = st.lines) (u : String) :
    hasUid st' u = hasUid st u := by
  unfold hasUid
  rw [h]

theorem hasUid_append_right {st st' : Ledger} (ext : List LineRec)
    (h : st'.lines = st.lines ++ ext) {u : String} (hu : hasUid st u = true) :
    hasUid st' u = true := by
  unfold hasUid at hu ⊢
  rw [h, List.any_append, hu]
  rfl

theorem uidList_append {st st' : Ledger} (ext : List LineRec)
    (h : st'.lines = st.lines ++ ext) :
    uidList st' = uidList st ++ ext.filterMap (·.uniqueImportId) := by
  unfold uidList
  rw [h, List.filterMap_append]

theorem hasUid_iff_mem (st : Ledger) (u : String) : hasUid st u = true ↔ u ∈ uidList st := by
  unfold hasUid uidList
  simp [List.any_eq_true, List.mem_filterMap, beq_iff_eq]

theorem uidsNodup_append_line {st st' : Ledger} {l : LineRec}
    (h : st'.lines = st.lines ++ [l])
    (hfresh : ∀ u, l.uniqueImportId = some u → hasUid st u = false)
    (hn : UidsNodup st) : UidsNodup st' := by
  unfold UidsNodup at hn ⊢
  rw [uidList_append [l] h]
  cases hc : l.uniqueImportId with
  | none =>
    have : List.filterMap (fun x : LineRec => x.uniqueImportId) [l] = [] := by simp [hc]
    rw [this, List.append_nil]
    exact hn
  | some u =>
    have : List.filterMap (fun x : LineRec => x.uniqueImportId) [l] = [u] := by simp [hc]
    rw [this, List.nodup_append]
    refine ⟨hn, List.nodup_singleton u, ?_⟩
    intro a ha ha'
    rw [List.mem_singleton] at ha'
    subst ha'
    have := (hasUid_iff_mem st a).mpr ha
    rw [hfresh a hc] at this
    exact Bool.noConfusion this

/-! ### Pipeline helper lemmas: one event -/

theorem importEvent_ok_spec (env : Env) (dryRun : Bool) (w t : String) (sid : ℕ)
    (st : Ledger) (tr : List Decision) (r : TransferEvent) {st2 : Ledger} {tr2 : List Decision}
    (h : importEvent env dryRun w t sid (st, tr) r = .ok (st2, tr2)) :
    st2.statements = st.statements ∧ st.nextId ≤ st2.nextId ∧
    (((jsTrim r.hash != "" && hasUid st (jsTrim r.hash)) = true ∧ st2.lines = st.lines ∧
        tr2 = tr ++ [Decision.skipDup (jsTrim r.hash)])
      ∨ ((jsTrim r.hash != "" && hasUid st (jsTrim r.hash)) = false ∧
        st2.lines = st.lines ++ (if dryRun then [] else [mkLine t sid r]) ∧
        tr2 = tr ++ [Decision.createLine (mkLine t sid r).paymentRef])) := by
  unfold importEvent at h
  dsimp only at h
  cases hres : findOrCreatePartnerBank env dryRun st 0
      (jsToLower (if r.fromAddr == w then r.toAddr else r.fromAddr)) with
  | error e =>
    rw [hres] at h
    exact Except.noConfusion h
  | ok p =>
    obtain ⟨bid, st1⟩ := p
    rw [hres] at h
    replace h : (if (jsTrim r.hash != "" &&
          hasUid (if (bid != 0 && !dryRun) = true then enrichPartnerFromBank st1 bid else st1)
            (jsTrim r.hash)) = true then
        Except.ok ((if (bid != 0 && !dryRun) = true then enrichPartnerFromBank st1 bid else st1),
          tr ++ [Decision.skipDup (jsTrim r.hash)])
      else createLine env dryRun
        (if (bid != 0 && !dryRun) = true then enrichPartnerFromBank st1 bid else st1) tr
        (mkLine t sid r)) = Except.ok (st2, tr2) := h
    obtain ⟨hl1, hs1, hn1⟩ := findOrCreatePartnerBank_state env dryRun st 0 _ hres
    have hE : ∀ stE, (if (bid != 0 && !dryRun) = true then enrichPartnerFromBank st1 bid
        else st1) = stE →
        stE.lines = st.lines ∧ stE.statements = st.statements ∧ st.nextId ≤ stE.nextId := by
      intro stE hEq
      rw [← hEq]
      split
      · obtain ⟨el, es, _, en⟩ := enrichPartnerFromBank_state st1 bid
        exact ⟨el.trans hl1, es.trans hs1, le_trans hn1 (le_of_eq en.symm)⟩
      · exact ⟨hl1, hs1, hn1⟩
    obtain ⟨hEl, hEs, hEn⟩ := hE _ rfl
    by_cases hskip : (jsTrim r.hash != "" &&
        hasUid (if (bid != 0 && !dryRun) = true then enrichPartnerFromBank st1 bid else st1)
          (jsTrim r.hash)) = true
    · rw [if_pos hskip] at h
      injection h with h1
      injection h1 with h2 h3
      subst h2 h3
      rw [hasUid_eq_of_lines hEl] at hskip
      exact ⟨hEs, hEn, Or.inl ⟨hskip, hEl, rfl⟩⟩
    · rw [if_neg hskip] at h
      obtain ⟨cs, _, _, cn, cl, ctr⟩ := createLine_state env dryRun _ tr (mkLine t sid r) h
      rw [Bool.not_eq_true] at hskip
      rw [hasUid_eq_of_lines hEl] at hskip
      refine ⟨cs.trans hEs, le_trans hEn (le_of_eq cn.symm), Or.inr ⟨hskip, ?_, ctr⟩⟩
      rw [cl, hEl]

theorem uidsNodup_of_lines {st st' : Ledger} (h : st'.lines = st.lines) :
    UidsNodup st → UidsNodup st' := by
  unfold UidsNodup uidList
  rw [h]
  exact id

theorem mkLine_uid (t : String) (sid : ℕ) (r : TransferEvent) :
    (mkLine t sid r).uniqueImportId
      = if jsTrim r.hash == "" then none else some (jsTrim r.hash) := rfl

theorem hasUid_mkLine (t : String) (sid : ℕ) (r : TransferEvent) {st st' : Ledger}
    (h : st'.lines = st.lines ++ [mkLine t sid r]) (htrim : jsTrim r.hash ≠ "") :
    hasUid st' (jsTrim r.hash) = true := by
  unfold hasUid
  rw [h, List.any_append]
  have hm : (mkLine t sid r).uniqueImportId = some (jsTrim r.hash) := by
    rw [mkLine_uid, if_neg (by simpa using htrim)]
  simp [hm]

/-! ### Pipeline helper lemmas: the per-month event loop -/

theorem importEventList_spec (env : Env) (dryRun : Bool) (w t : String) (sid : ℕ) :
    ∀ (items : List TransferEvent) (st : Ledger) (tr : List Decision)
      {st2 : Ledger} {tr2 : List Decision},
      importEventList env dryRun w t sid (st, tr) items = .ok (st2, tr2) →
      st2.statements = st.statements ∧ st.nextId ≤ st2.nextId ∧
      (∃ ext, st2.lines = st.lines ++ ext ∧
        ∀ l ∈ ext, ∃ r ∈ items, l = mkLine t sid r) ∧
      (UidsNodup st → UidsNodup st2) ∧
      ((∀ r ∈ items, jsTrim r.hash ≠ "" ∧ hasUid st (jsTrim r.hash) = true) → st2.lines = st.lines) ∧
      (dryRun = false → ∀ r ∈ items, jsTrim r.hash ≠ "" → hasUid st2 (jsTrim r.hash) = true) := by
  intro items
  induction items with
  | nil =>
    intro st tr st2 tr2 h
    replace h : Except.ok (st, tr) = Except.ok (st2, tr2) := h
    injection h with h1
    injection h1 with h2 h3
    subst h2
    refine ⟨rfl, le_refl _, ⟨[], by simp, by simp⟩, id, fun _ => rfl, ?_⟩
    intro _ r hr
    exact absurd hr (List.not_mem_nil r)
  | cons r rest ih =>
    intro st tr st2 tr2 h
    unfold importEventList at h
    rw [List.foldlM_cons] at h
    cases himp : importEvent env dryRun w t sid (st, tr) r with
    | error e =>
      rw [himp] at h
      replace h : Except.error e = Except.ok (st2, tr2) := h
      exact Except.noConfusion h
    | ok p =>
      obtain ⟨stA, trA⟩ := p
      rw [himp] at h
      replace h : importEventList env dryRun w t sid (stA, trA) rest = Except.ok (st2, tr2) := h
      obtain ⟨ihS, ihN, ⟨ext, ihL, ihM⟩, ihD, ihE, ihF⟩ := ih stA trA h
      obtain ⟨sS, sN, scase⟩ := importEvent_ok_spec env dryRun w t sid st tr r himp
      rcases scase with ⟨hcond, hlineseq, _⟩ | ⟨hcond, hlineseq, _⟩
      · -- duplicate skipped
        refine ⟨ihS.trans sS, le_trans sN ihN, ⟨ext, by rw [ihL, hlineseq], ?_⟩, ?_, ?_, ?_⟩
        · intro l hl
          obtain ⟨r', hr', hl'⟩ := ihM l hl
          exact ⟨r', List.mem_cons_of_mem r hr', hl'⟩
        · intro hnod
          exact ihD (uidsNodup_of_lines hlineseq hnod)
        · intro hall
          have hA : st2.lines = stA.lines := by
            apply ihE
            intro r' hr'
            obtain ⟨h1, h2⟩ := hall r' (List.mem_cons_of_mem r hr')
            rw [hasUid_eq_of_lines hlineseq]
            exact ⟨h1, h2⟩
          rw [hA, hlineseq]
        · intro hdf r' hr' htrim
          rcases List.mem_cons.mp hr' with hre | hrr
          · subst hre
            have hst : hasUid stA (jsTrim r'.hash) = true := by
              rw [hasUid_eq_of_lines hlineseq]
              have := Bool.and_eq_true_iff.mp hcond
              exact this.2
            exact hasUid_append_right ext ihL hst
          · exact ihF hdf r' hrr htrim
      · -- line created (or would be, in dry-run mode)
        refine ⟨ihS.trans sS, le_trans sN ihN,
          ⟨(if dryRun then [] else [mkLine t sid r]) ++ ext, ?_, ?_⟩, ?_, ?_, ?_⟩
        · rw [ihL, hlineseq, List.append_assoc]
        · intro l hl
          rcases List.mem_append.mp hl with h1 | h2
          · refine ⟨r, List.mem_cons_self r rest, ?_⟩
            cases hdry : dryRun with
            | true => rw [hdry] at h1; exact absurd h1 (List.not_mem_nil l)
            | false =>
              rw [hdry] at h1
              simp only [Bool.false_eq_true, if_false, List.mem_singleton] at h1
              exact h1
          · obtain ⟨r', hr', hl'⟩ := ihM l h2
            exact ⟨r', List.mem_cons_of_mem r hr', hl'⟩
        · intro hnod
          apply ihD
          cases hdry : dryRun with
          | true =>
            apply uidsNodup_of_lines _ hnod
            rw [hlineseq, hdry]
            simp
          | false =>
            rw [hdry] at hlineseq
            simp only [Bool.false_eq_true, if_false] at hlineseq
            apply uidsNodup_append_line hlineseq _ hnod
            intro u hu
            rw [mkLine_uid] at hu
            by_cases htr : (jsTrim r.hash == "") = true
            · rw [if_pos htr] at hu
              exact Option.noConfusion hu
            · rw [if_neg htr] at hu
              injection hu with hu'
              subst hu'
              rcases Bool.and_eq_false_iff.mp hcond with h1 | h1
              · rw [bne_eq_false_iff_eq] at h1
                exact absurd h1 (by simpa using htr)
              · exact h1
        · intro hall
          obtain ⟨h1, h2⟩ := hall r (List.mem_cons_self r rest)
          have : (jsTrim r.hash != "" && hasUid st (jsTrim r.hash)) = true := by
            rw [h2]
            simp [bne_iff_ne, h1]
          rw [this] at hcond
          exact Bool.noConfusion hcond
        · intro hdf r' hr' htrim
          rcases List.mem_cons.mp hr' with hre | hrr
          · subst hre
            have hl2 : stA.lines = st.lines ++ [mkLine t sid r'] := by
              rw [hlineseq, hdf]
              simp
            exact hasUid_append_right ext ihL (hasUid_mkLine t sid r' hl2 htrim)
          · exact ihF hdf r' hrr htrim

/-! ### Pipeline helper lemmas: month groups and the whole run -/

theorem importMonthGroup_spec (env : Env) (dryRun : Bool) (w t : String) (j : ℕ) (cur : String)
    (g : String × List TransferEvent) (st : Ledger) (tr : List Decision)
    {st2 : Ledger} {tr2 : List Decision}
    (h : importMonthGroup env dryRun w t j cur (st, tr) g = .ok (st2, tr2)) :
    st.nextId ≤ st2.nextId ∧
    (∃ ext, st2.lines = st.lines ++ ext ∧
      ∀ l ∈ ext, ∃ r ∈ g.2, ∃ sid, l = mkLine t sid r) ∧
    (UidsNodup st → UidsNodup st2) ∧
    ((∀ r ∈ g.2, jsTrim r.hash ≠ "" ∧ hasUid st (jsTrim r.hash) = true) → st2.lines = st.lines) ∧
    (dryRun = false → ∀ r ∈ g.2, jsTrim r.hash ≠ "" → hasUid st2 (jsTrim r.hash) = true) := by
  unfold importMonthGroup at h
  rcases hget : getOrCreateMonthlyStatement dryRun st j g.1 with ⟨sid0, stG⟩
  rw [hget] at h
  replace h : (match importEventList env dryRun w t sid0 (stG, tr) g.2 with
    | .error e => Except.error e
    | .ok (st3, tr3) =>
      if jsStrLt g.1 cur then
        Except.ok (closeStatementIfNeeded env dryRun st3 sid0, tr3 ++ [Decision.closeMonth g.1])
      else Except.ok (st3, tr3 ++ [Decision.keepOpen g.1])) = Except.ok (st2, tr2) := h
  have hGfacts := getOrCreateMonthlyStatement_state dryRun st j g.1
  rw [hget] at hGfacts
  obtain ⟨gl, _, _, gn⟩ := hGfacts
  replace gl : stG.lines = st.lines := gl
  replace gn : st.nextId ≤ stG.nextId := gn
  cases hev : importEventList env dryRun w t sid0 (stG, tr) g.2 with
  | error e =>
    rw [hev] at h
    replace h : Except.error e = Except.ok (st2, tr2) := h
    exact Except.noConfusion h
  | ok p =>
    obtain ⟨st3, tr3⟩ := p
    rw [hev] at h
    obtain ⟨eS, eN, ⟨ext, eL, eM⟩, eD, eE, eF⟩ := importEventList_spec env dryRun w t sid0 g.2 stG tr hev
    have hfinal : st2.lines = st3.lines ∧ st3.nextId ≤ st2.nextId := by
      replace h : (if jsStrLt g.1 cur then
          Except.ok (closeStatementIfNeeded env dryRun st3 sid0,
            tr3 ++ [Decision.closeMonth g.1])
        else Except.ok (st3, tr3 ++ [Decision.keepOpen g.1])) = Except.ok (st2, tr2) := h
      split at h
      · injection h with h1
        injection h1 with h2 h3
        subst h2
        obtain ⟨c1, _, _, c4⟩ := closeStatementIfNeeded_state env dryRun st3 sid0
        exact ⟨c1, le_of_eq c4.symm⟩
      · injection h with h1
        injection h1 with h2 h3
        subst h2
        exact ⟨rfl, le_refl _⟩
    obtain ⟨fL, fN⟩ := hfinal
    refine ⟨le_trans gn (le_trans eN fN), ⟨ext, ?_, ?_⟩, ?_, ?_, ?_⟩
    · rw [fL, eL, gl]
    · intro l hl
      obtain ⟨r, hr, hml⟩ := eM l hl
      exact ⟨r, hr, sid0, hml⟩
    · intro hnod
      exact uidsNodup_of_lines fL (eD (uidsNodup_of_lines gl hnod))
    · intro hall
      rw [fL, gl.symm]
      apply eE
      intro r hr
      obtain ⟨h1, h2⟩ := hall r hr
      rw [hasUid_eq_of_lines gl]
      exact ⟨h1, h2⟩
    · intro hdf r hr htrim
      rw [hasUid_eq_of_lines fL]
      exact eF hdf r hr htrim

theorem importGroups_spec (env : Env) (dryRun : Bool) (w t : String) (j : ℕ) (cur : String) :
    ∀ (gs : List (String × List TransferEvent)) (st : Ledger) (tr : List Decision)
      {st2 : Ledger} {tr2 : List Decision},
      gs.foldlM (importMonthGroup env dryRun w t j cur) (st, tr) = .ok (st2, tr2) →
      st.nextId ≤ st2.nextId ∧
      (∃ ext, st2.lines = st.lines ++ ext ∧
        ∀ l ∈ ext, ∃ g ∈ gs, ∃ r ∈ g.2, ∃ sid, l = mkLine t sid r) ∧
      (UidsNodup st → UidsNodup st2) ∧
      ((∀ g ∈ gs, ∀ r ∈ g.2, jsTrim r.hash ≠ "" ∧ hasUid st (jsTrim r.hash) = true) →
        st2.lines = st.lines) ∧
      (dryRun = false → ∀ g ∈ gs, ∀ r ∈ g.2, jsTrim r.hash ≠ "" →
        hasUid st2 (jsTrim r.hash) = true) := by
  intro gs
  induction gs with
  | nil =>
    intro st tr st2 tr2 h
    replace h : Except.ok (st, tr) = Except.ok (st2, tr2) := h
    injection h with h1
    injection h1 with h2 h3
    subst h2
    refine ⟨le_refl _, ⟨[], by simp, by simp⟩, id, fun _ => rfl, ?_⟩
    intro _ g hg
    exact absurd hg (List.not_mem_nil g)
  | cons g gs ih =>
    intro st tr st2 tr2 h
    rw [List.foldlM_cons] at h
    cases hg : importMonthGroup env dryRun w t j cur (st, tr) g with
    | error e =>
      rw [hg] at h
      replace h : Except.error e = Except.ok (st2, tr2) := h
      exact Except.noConfusion h
    | ok p =>
      obtain ⟨stA, trA⟩ := p
      rw [hg] at h
      replace h : gs.foldlM (importMonthGroup env dryRun w t j cur) (stA, trA)
          = Except.ok (st2, tr2) := h
      obtain ⟨gN, ⟨extG, gL, gM⟩, gD, gE, gF⟩ := importMonthGroup_spec env dryRun w t j cur g st tr hg
      obtain ⟨iN, ⟨extI, iL, iM⟩, iD, iE, iF⟩ := ih stA trA h
      refine ⟨le_trans gN iN, ⟨extG ++ extI, ?_, ?_⟩, fun hn => iD (gD hn), ?_, ?_⟩
      · rw [iL, gL, List.append_assoc]
      · intro l hl
        rcases List.mem_append.mp hl with h1 | h2
        · obtain ⟨r, hr, sid, hml⟩ := gM l h1
          exact ⟨g, List.mem_cons_self g gs, r, hr, sid, hml⟩
        · obtain ⟨g', hg', r, hr, sid, hml⟩ := iM l h2
          exact ⟨g', List.mem_cons_of_mem g hg', r, hr, sid, hml⟩
      · intro hall
        have hA : stA.lines = st.lines := gE (hall g (List.mem_cons_self g gs))
        rw [← hA]
        apply iE
        intro g' hg' r hr
        obtain ⟨h1, h2⟩ := hall g' (List.mem_cons_of_mem g hg') r hr
        rw [hasUid_eq_of_lines hA]
        exact ⟨h1, h2⟩
      · intro hdf g' hg' r hr htrim
        rcases List.mem_cons.mp hg' with h1 | h2
        · subst h1
          exact hasUid_append_right extI iL (gF hdf r hr htrim)
        · exact iF hdf g' h2 r hr htrim

theorem mem_insertByMonth (r e : TransferEvent) (mk : String) :
    ∀ acc : List (String × List TransferEvent),
      (∃ g ∈ insertByMonth acc mk e, r ∈ g.2) ↔ (∃ g ∈ acc, r ∈ g.2) ∨ r = e := by
  intro acc
  induction acc with
  | nil => simp [insertByMonth, eq_comm]
  | cons p rest ih =>
    rcases p with ⟨k, es⟩
    unfold insertByMonth
    by_cases hk : (k == mk) = true
    · rw [if_pos hk]
      constructor
      · rintro ⟨g, hg, hrg⟩
        rcases List.mem_cons.mp hg with rfl | hgr
        · rcases List.mem_append.mp hrg with h1 | h2
          · exact Or.inl ⟨(k, es), List.mem_cons_self _ _, h1⟩
          · rw [List.mem_singleton] at h2
            exact Or.inr h2
        · exact Or.inl ⟨g, List.mem_cons_of_mem _ hgr, hrg⟩
      · rintro (⟨g, hg, hrg⟩ | hre)
        · rcases List.mem_cons.mp hg with rfl | hgr
          · exact ⟨(k, es ++ [e]), List.mem_cons_self _ _, List.mem_append.mpr (Or.inl hrg)⟩
          · exact ⟨g, List.mem_cons_of_mem _ hgr, hrg⟩
        · refine ⟨(k, es ++ [e]), List.mem_cons_self _ _, List.mem_append.mpr (Or.inr ?_)⟩
          rw [hre]
          exact List.mem_singleton.mpr rfl
    · rw [if_neg hk]
      constructor
      · rintro ⟨g, hg, hrg⟩
        rcases List.mem_cons.mp hg with rfl | hgr
        · exact Or.inl ⟨(k, es), List.mem_cons_self _ _, hrg⟩
        · rcases ih.mp ⟨g, hgr, hrg⟩ with ⟨gg, hgg, hrgg⟩ | hre
          · exact Or.inl ⟨gg, List.mem_cons_of_mem _ hgg, hrgg⟩
          · exact Or.inr hre
      · rintro (⟨g, hg, hrg⟩ | hre)
        · rcases List.mem_cons.mp hg with rfl | hgr
          · exact ⟨(k, es), List.mem_cons_self _ _, hrg⟩
          · obtain ⟨gg, hgg, hrgg⟩ := ih.mpr (Or.inl ⟨g, hgr, hrg⟩)
            exact ⟨gg, List.mem_cons_of_mem _ hgg, hrgg⟩
        · obtain ⟨gg, hgg, hrgg⟩ := ih.mpr (Or.inr hre)
          exact ⟨gg, List.mem_cons_of_mem _ hgg, hrgg⟩

theorem mem_groupFold (r : TransferEvent) :
    ∀ (evs : List TransferEvent) (acc : List (String × List TransferEvent)),
      (∃ g ∈ evs.foldl (fun a e => insertByMonth a (monthKeyFromISO e.date) e) acc, r ∈ g.2)
        ↔ (∃ g ∈ acc, r ∈ g.2) ∨ r ∈ evs := by
  intro evs
  induction evs with
  | nil => simp
  | cons e evs ih =>
    intro acc
    rw [List.foldl_cons, ih, mem_insertByMonth, List.mem_cons]
    constructor
    · rintro ((h | h) | h)
      · exact Or.inl h
      · exact Or.inr (Or.inl h)
      · exact Or.inr (Or.inr h)
    · rintro (h | (h | h))
      · exact Or.inl (Or.inl h)
      · exact Or.inl (Or.inr h)
      · exact Or.inr h

theorem mem_groupByMonth (r : TransferEvent) (evs : List TransferEvent) :
    (∃ g ∈ groupByMonth evs, r ∈ g.2) ↔ r ∈ evs := by
  unfold groupByMonth
  rw [mem_groupFold]
  simp

theorem runImport_spec (env : Env) (dryRun : Bool) (w t : String) (j : ℕ) (cur : String)
    (st0 : Ledger) (transfers : List TransferEvent) {st' : Ledger} {tr' : List Decision}
    (h : runImport env dryRun w t j cur st0 transfers = .ok (st', tr')) :
    st0.nextId ≤ st'.nextId ∧
    (∃ ext, st'.lines = st0.lines ++ ext ∧
      ∀ l ∈ ext, ∃ r ∈ transfers, ∃ sid, l = mkLine t sid r) ∧
    (UidsNodup st0 → UidsNodup st') ∧
    ((∀ r ∈ transfers, jsTrim r.hash ≠ "" ∧ hasUid st0 (jsTrim r.hash) = true) →
      st'.lines = st0.lines) ∧
    (dryRun = false → ∀ r ∈ transfers, jsTrim r.hash ≠ "" → hasUid st' (jsTrim r.hash) = true) := by
  unfold runImport at h
  cases hf : (groupByMonth transfers).foldlM
      (importMonthGroup env dryRun w t j cur) (st0, []) with
  | error e =>
    rw [hf] at h
    exact Except.noConfusion h
  | ok p =>
    obtain ⟨stM, trM⟩ := p
    rw [hf] at h
    replace h : Except.ok (closeAllPastMonthlyStatements env dryRun stM j cur trM)
        = Except.ok (st', tr') := h
    injection h with h1
    have hst : (closeAllPastMonthlyStatements env dryRun stM j cur trM).1 = st' := by
      rw [h1]
    obtain ⟨cl, _, _, cn⟩ := closeAllPast_state env dryRun stM j cur trM
    rw [hst] at cl cn
    obtain ⟨fN, ⟨ext, fL, fM⟩, fD, fE, fF⟩ := importGroups_spec env dryRun w t j cur
      (groupByMonth transfers) st0 [] hf
    refine ⟨le_trans fN (le_of_eq cn.symm), ⟨ext, by rw [cl, fL], ?_⟩, ?_, ?_, ?_⟩
    · intro l hl
      obtain ⟨g, hg, r, hr, sid, hml⟩ := fM l hl
      refine ⟨r, ?_, sid, hml⟩
      exact (mem_groupByMonth r transfers).mp ⟨g, hg, hr⟩
    · intro hnod
      exact uidsNodup_of_lines cl (fD hnod)
    · intro hall
      rw [cl]
      apply fE
      intro g hg r hr
      exact hall r ((mem_groupByMonth r transfers).mp ⟨g, hg, hr⟩)
    · intro hdf r hr htrim
      rw [hasUid_eq_of_lines cl]
      obtain ⟨g, hg, hrg⟩ := (mem_groupByMonth r transfers).mpr hr
      exact fF hdf g hg r hrg htrim

/-! ### C1 -/

/-- C1 counterexample: two transfers of the same transaction (same hash,
transaction indices 0 and 1) imported into an empty ledger produce exactly
one line, carrying the first event's reference; the second event's dedup
key `0xabc:1:0xT` has no existing line yet the event gets no line, because
the duplicate check uses `unique_import_id = hash.trim()` alone. -/
theorem C1_counterexample :
    (runImport envOk false "0xW" "0xT" 55 "2020-01" emptyLedger
        [⟨"0xabc", "0", "0xS", "0xW", 1000000, 18, 0, "2024-01-10"⟩,
         ⟨"0xabc", "1", "0xS", "0xW", 2000000, 18, 0, "2024-01-10"⟩]).map
        (fun p => p.1.lines.map (·.paymentRef))
      = .ok ["0xabc:0:0xT"] ∧
    ("0xabc:1:0xT" : String) ≠ "0xabc:0:0xT" :=
  ⟨rfl, by decide⟩

/-- C1 amended: line dedup is keyed on the trimmed transaction hash alone
(stored as `unique_import_id`); the key `hash:index:tokenAddress` is only
written as the line's `payment_ref`.  With that key: no two lines ever
carry the same `unique_import_id`; re-invoking on a set of events whose
trimmed hashes all already have lines creates no lines at all; and after a
run every event with a non-empty trimmed hash has a line carrying that
hash (an event whose hash duplicates an earlier event's hash — even at a
different transaction index — is skipped, and an event whose hash is
empty or whitespace is never dedup-checked). -/
theorem C1_dedupByHash (w t : String) (j : ℕ) (cur : String) (st0 : Ledger)
    (transfers : List TransferEvent) (st' : Ledger) (tr' : List Decision)
    (h : runImport envOk false w t j cur st0 transfers = .ok (st', tr')) :
    (UidsNodup st0 → UidsNodup st') ∧
    ((∀ r ∈ transfers, jsTrim r.hash ≠ "" ∧ hasUid st0 (jsTrim r.hash) = true) →
      st'.lines = st0.lines) ∧
    (∀ r ∈ transfers, jsTrim r.hash ≠ "" → hasUid st' (jsTrim r.hash) = true) := by
  obtain ⟨_, _, hD, hE, hF⟩ := runImport_spec envOk false w t j cur st0 transfers h
  exact ⟨hD, hE, hF rfl⟩

/-- Witness for C1 at a one-event run from the empty ledger. -/
theorem C1_dedupByHash_witness :
    hasUid (⟨[⟨0, 55, "Feed 2024-01", none, none, false⟩],
      [mkLine "0xT" 0 ⟨"0xw1", "0", "0xS", "0xW", 1000000, 18, 0, "2024-01-10"⟩],
      [⟨1, "Unknown", true, true⟩], [⟨2, "0XS", 1⟩], 3⟩ : Ledger) "0xw1" = true :=
  (C1_dedupByHash "0xW" "0xT" 55 "2020-01" emptyLedger
      [⟨"0xw1", "0", "0xS", "0xW", 1000000, 18, 0, "2024-01-10"⟩] _ _ rfl).2.2
    ⟨"0xw1", "0", "0xS", "0xW", 1000000, 18, 0, "2024-01-10"⟩
    (List.mem_singleton.mpr rfl) (by decide)

/-! ### C2 -/

/-- C2 counterexample: a transfer sent BY the tracked wallet (the wallet is
the sender) with raw value 5000000 and token decimals 6 produces a line
whose amount is `5000000 / 10^18` — scaled by the hard-coded 18 decimals,
not the token's 6 — and the amount is strictly positive although the
wallet is the sender. -/
theorem C2_counterexample :
    (runImport envOk false "0xW" "0xT" 55 "2020-01" emptyLedger
        [⟨"0xdd", "0", "0xW", "0xR", 5000000, 6, 0, "2024-01-05"⟩]).map
        (fun p => p.1.lines.map (·.amount))
      = .ok [formatUnits 5000000 18] ∧
    formatUnits 5000000 18 ≠ -((5000000 : ℚ) / 10 ^ 6) ∧
    formatUnits 5000000 18 ≠ (5000000 : ℚ) / 10 ^ 6 ∧
    0 < formatUnits 5000000 18 := by
  refine ⟨rfl, ?_, ?_, ?_⟩ <;> norm_num [formatUnits]

/-- C2 amended: every line created by a run carries the amount
`value / 10^18` of its event — the token's `tokenDecimal` field is never
consulted — and the amount has the sign of the raw value itself, so it is
strictly positive for every ordinary (positive-value) transfer whether the
tracked wallet is the sender or the recipient. -/
theorem C2_amountUnsigned18 (w t : String) (j : ℕ) (cur : String) (st0 : Ledger)
    (transfers : List TransferEvent) (st' : Ledger) (tr' : List Decision)
    (h : runImport envOk false w t j cur st0 transfers = .ok (st', tr')) :
    ∃ ext, st'.lines = st0.lines ++ ext ∧
      ∀ l ∈ ext, ∃ r ∈ transfers, l.amount = (r.value : ℚ) / 10 ^ 18 ∧
        (0 < r.value → 0 < l.amount) ∧ (r.value < 0 → l.amount < 0) := by
  obtain ⟨_, ⟨ext, hL, hM⟩, _, _, _⟩ := runImport_spec envOk false w t j cur st0 transfers h
  refine ⟨ext, hL, ?_⟩
  intro l hl
  obtain ⟨r, hr, sid, hml⟩ := hM l hl
  have hamt : l.amount = (r.value : ℚ) / 10 ^ 18 := by
    rw [hml]
    rfl
  refine ⟨r, hr, hamt, ?_, ?_⟩
  · intro hv
    rw [hamt]
    have : (0 : ℚ) < (r.value : ℚ) := by exact_mod_cast hv
    positivity
  · intro hv
    rw [hamt]
    apply div_neg_of_neg_of_pos
    · exact_mod_cast hv
    · positivity

/-- Witness for C2 at a one-event run from the empty ledger. -/
theorem C2_amountUnsigned18_witness :
    ∃ ext, (⟨[⟨0, 55, "Feed 2024-02", none, none, false⟩],
        [mkLine "0xT" 0 ⟨"0xw2", "0", "0xS", "0xW", 7, 18, 0, "2024-02-10"⟩],
        [⟨1, "Unknown", true, true⟩], [⟨2, "0XS", 1⟩], 3⟩ : Ledger).lines
        = emptyLedger.lines ++ ext ∧
      ∀ l ∈ ext, ∃ r ∈ [(⟨"0xw2", "0", "0xS", "0xW", 7, 18, 0, "2024-02-10"⟩ : TransferEvent)],
        l.amount = (r.value : ℚ) / 10 ^ 18 ∧
        (0 < r.value → 0 < l.amount) ∧ (r.value < 0 → l.amount < 0) :=
  C2_amountUnsigned18 "0xW" "0xT" 55 "2020-01" emptyLedger
    [⟨"0xw2", "0", "0xS", "0xW", 7, 18, 0, "2024-02-10"⟩] _ _ rfl

/-! ### C4 -/

theorem insertByMonth_cons (k mk : String) (es : List TransferEvent)
    (acc : List (String × List TransferEvent)) (e : TransferEvent) :
    insertByMonth ((k, es) :: acc) mk e =
      if k == mk then (k, es ++ [e]) :: acc else (k, es) :: insertByMonth acc mk e := rfl

theorem foldl_insert_head (k : String) :
    ∀ (l : List TransferEvent) (es : List TransferEvent)
      (acc : List (String × List TransferEvent)),
      ∃ es2 acc2,
        l.foldl (fun a e => insertByMonth a (monthKeyFromISO e.date) e) ((k, es) :: acc)
          = (k, es ++ es2) :: acc2 := by
  intro l
  induction l with
  | nil =>
    intro es acc
    exact ⟨[], acc, by simp⟩
  | cons e l ih =>
    intro es acc
    rw [List.foldl_cons]
    show ∃ es2 acc2,
      List.foldl (fun a e => insertByMonth a (monthKeyFromISO e.date) e)
        (insertByMonth ((k, es) :: acc) (monthKeyFromISO e.date) e) l
      = (k, es ++ es2) :: acc2
    rw [insertByMonth_cons]
    by_cases hk : (k == monthKeyFromISO e.date) = true
    · rw [if_pos hk]
      obtain ⟨es2, acc2, heq⟩ := ih (es ++ [e]) acc
      refine ⟨[e] ++ es2, acc2, ?_⟩
      rw [← List.append_assoc]
      exact heq
    · rw [if_neg hk]
      obtain ⟨es2, acc2, heq⟩ := ih es (insertByMonth acc (monthKeyFromISO e.date) e)
      exact ⟨es2, acc2, heq⟩

theorem groupByMonth_cons (r : TransferEvent) (rest : List TransferEvent) :
    ∃ items gs, groupByMonth (r :: rest)
      = (monthKeyFromISO r.date, r :: items) :: gs := by
  show ∃ items gs,
    List.foldl (fun a e => insertByMonth a (monthKeyFromISO e.date) e)
      ((monthKeyFromISO r.date, [r]) :: []) rest
    = (monthKeyFromISO r.date, r :: items) :: gs
  obtain ⟨es2, acc2, heq⟩ := foldl_insert_head (monthKeyFromISO r.date) rest [r] []
  exact ⟨es2, acc2, heq⟩

/-- C4 counterexample: with a remote environment in which the bank-account
creation for the first event's counterparty fails, a two-event batch makes
the whole run return that error — the second event is never imported —
while the same batch under a fully healthy environment creates both lines.
The per-event failure is fatal to the run, not skipped. -/
theorem C4_counterexample :
    runImport ⟨fun _ => true, fun a => a != normalizeAcc (jsToLower "0xS1"), fun _ => true,
        fun _ => true⟩ false "0xW" "0xT" 55 "2020-01" emptyLedger
      [⟨"0xa1", "0", "0xS1", "0xW", 7, 18, 0, "2024-01-02"⟩,
       ⟨"0xb2", "0", "0xS2", "0xW", 9, 18, 0, "2024-01-03"⟩]
      = .error "create bank account failed" ∧
    (runImport envOk false "0xW" "0xT" 55 "2020-01" emptyLedger
      [⟨"0xa1", "0", "0xS1", "0xW", 7, 18, 0, "2024-01-02"⟩,
       ⟨"0xb2", "0", "0xS2", "0xW", 9, 18, 0, "2024-01-03"⟩]).map
        (fun p => p.1.lines.map (·.paymentRef))
      = .ok ["0xa1:0:0xT", "0xb2:0:0xT"] :=
  ⟨rfl, rfl⟩

/-- C4 amended: a counterparty-resolution or line-creation failure for an
event is NOT caught by the import loop: the raised error propagates and
aborts the entire run with that same error (the remaining events of the
batch are never processed; only the statement-post step has a local
catch).  Stated for a failure on the first event of the batch. -/
theorem C4_failureAborts (env : Env) (w t : String) (j : ℕ) (cur : String) (st0 : Ledger)
    (r : TransferEvent) (rest : List TransferEvent) (msg : String)
    (h : importEvent env false w t
        (getOrCreateMonthlyStatement false st0 j (monthKeyFromISO r.date)).1
        ((getOrCreateMonthlyStatement false st0 j (monthKeyFromISO r.date)).2, []) r
        = .error msg) :
    runImport env false w t j cur st0 (r :: rest) = .error msg := by
  obtain ⟨items, gs, hgrp⟩ := groupByMonth_cons r rest
  unfold runImport
  rw [hgrp, List.foldlM_cons]
  have hmonth : importMonthGroup env false w t j cur (st0, [])
      (monthKeyFromISO r.date, r :: items) = .error msg := by
    unfold importMonthGroup
    rcases hget : getOrCreateMonthlyStatement false st0 j (monthKeyFromISO r.date) with ⟨sid0, stG⟩
    rw [hget] at h
    replace h : importEvent env false w t sid0 (stG, []) r = .error msg := h
    replace hlist : importEventList env false w t sid0 (stG, []) (r :: items) = .error msg := by
      unfold importEventList
      rw [List.foldlM_cons, h]
      rfl
    show (match importEventList env false w t sid0 (stG, []) (r :: items) with
      | .error e => Except.error e
      | .ok (st3, tr3) =>
        if jsStrLt (monthKeyFromISO r.date, r :: items).1 cur then
          Except.ok (closeStatementIfNeeded env false st3 sid0,
            tr3 ++ [Decision.closeMonth (monthKeyFromISO r.date, r :: items).1])
        else Except.ok (st3, tr3 ++ [Decision.keepOpen (monthKeyFromISO r.date, r :: items).1]))
      = Except.error msg
    rw [hlist]
  rw [hmonth]
  rfl

/-- Witness for C4: a single-event batch whose counterparty bank-account
creation fails makes the run return that error. -/
theorem C4_failureAborts_witness :
    runImport ⟨fun _ => true, fun _ => false, fun _ => true, fun _ => true⟩ false
      "0xW" "0xT" 55 "2020-01" emptyLedger
      [⟨"0xw9", "0", "0xS9", "0xW", 3, 18, 0, "2024-03-04"⟩]
      = .error "create bank account failed" :=
  C4_failureAborts ⟨fun _ => true, fun _ => false, fun _ => true, fun _ => true⟩
    "0xW" "0xT" 55 "2020-01" emptyLedger
    ⟨"0xw9", "0", "0xS9", "0xW", 3, 18, 0, "2024-03-04"⟩ [] "create bank account failed" rfl

/-! ### C5 -/

theorem closeStatement_none_eq (env : Env) (dryRun : Bool) (st : Ledger) (sid : ℕ)
    (hf : st.statements.find? (fun x => x.id == sid) = none) :
    closeStatementIfNeeded env dryRun st sid = st := by
  unfold closeStatementIfNeeded
  split
  · rfl
  · next s heq => rw [hf] at heq; exact Option.noConfusion heq

theorem setPosted_posts (st : Ledger) (sid : ℕ) :
    ∀ s' ∈ (setPosted st sid).statements, s'.id = sid → s'.posted = true := by
  intro s' hs' hid
  replace hs' : s' ∈ st.statements.map
      (fun s => if s.id == sid then { s with posted := true } else s) := hs'
  obtain ⟨x, hx, hfx⟩ := List.mem_map.mp hs'
  by_cases h : (x.id == sid) = true
  · rw [if_pos h] at hfx
    rw [← hfx]
  · rw [if_neg h] at hfx
    subst hfx
    exact absurd (beq_iff_eq.mpr hid) h

theorem close_posts (st : Ledger) (sid : ℕ) :
    ∀ s' ∈ (closeStatementIfNeeded envOk false st sid).statements,
      s'.id = sid → s'.posted = true := by
  cases hf : st.statements.find? (fun x => x.id == sid) with
  | none =>
    rw [closeStatement_none_eq envOk false st sid hf]
    intro s' hs' hid
    exact absurd (beq_iff_eq.mpr hid) (List.find?_eq_none.mp hf s' hs')
  | some s =>
    cases hbe : s.balanceEndReal with
    | none =>
      rw [closeStatement_unset_eq st sid s hf hbe]
      exact setPosted_posts _ sid
    | some e =>
      rw [closeStatement_set_eq st sid s e hf hbe]
      exact setPosted_posts st sid

/-- A close step never changes a statement's identity fields and never
reverts an already-posted statement. -/
def StmtLe (x y : StatementRec) : Prop :=
  y.id = x.id ∧ y.name = x.name ∧ y.journalId = x.journalId ∧
    (x.posted = true → y.posted = true)

theorem stmtLe_refl (x : StatementRec) : StmtLe x x := ⟨rfl, rfl, rfl, id⟩

theorem stmtLe_trans {x y z : StatementRec} (h1 : StmtLe x y) (h2 : StmtLe y z) : StmtLe x z :=
  ⟨h2.1.trans h1.1, h2.2.1.trans h1.2.1, h2.2.2.1.trans h1.2.2.1,
    fun hp => h2.2.2.2 (h1.2.2.2 hp)⟩

theorem forall2_stmtLe_refl : ∀ l : List StatementRec, List.Forall₂ StmtLe l l := by
  intro l
  induction l with
  | nil => exact List.Forall₂.nil
  | cons x l ih => exact List.Forall₂.cons (stmtLe_refl x) ih

theorem forall2_stmtLe_trans {a b c : List StatementRec}
    (h1 : List.Forall₂ StmtLe a b) (h2 : List.Forall₂ StmtLe b c) :
    List.Forall₂ StmtLe a c := by
  induction h1 generalizing c with
  | nil => cases h2; exact List.Forall₂.nil
  | cons hxy h1' ih =>
    cases h2 with
    | cons hyz h2' => exact List.Forall₂.cons (stmtLe_trans hxy hyz) (ih h2')

theorem forall2_stmtLe_map (f : StatementRec → StatementRec) (hf : ∀ x, StmtLe x (f x)) :
    ∀ l : List StatementRec, List.Forall₂ StmtLe l (l.map f) := by
  intro l
  induction l with
  | nil => exact List.Forall₂.nil
  | cons x l ih => exact List.Forall₂.cons (hf x) ih

theorem forall2_stmtLe_mem_right {a b : List StatementRec}
    (h : List.Forall₂ StmtLe a b) : ∀ {y}, y ∈ b → ∃ x ∈ a, StmtLe x y := by
  induction h with
  | nil => intro y hy; exact absurd hy (List.not_mem_nil y)
  | cons hxy hab ih =>
    intro y hy
    rcases List.mem_cons.mp hy with rfl | hy'
    · exact ⟨_, List.mem_cons_self _ _, hxy⟩
    · obtain ⟨x, hx, hle⟩ := ih hy'
      exact ⟨x, List.mem_cons_of_mem _ hx, hle⟩

theorem setBalanceEnd_stmtLe (st : Ledger) (sid : ℕ) (e : ℚ) :
    List.Forall₂ StmtLe st.statements (setBalanceEnd st sid e).statements := by
  apply forall2_stmtLe_map
  intro x
  by_cases h : (x.id == sid) = true
  · rw [if_pos h]; exact ⟨rfl, rfl, rfl, id⟩
  · rw [if_neg h]; exact stmtLe_refl x

theorem setPosted_stmtLe (st : Ledger) (sid : ℕ) :
    List.Forall₂ StmtLe st.statements (setPosted st sid).statements := by
  apply forall2_stmtLe_map
  intro x
  by_cases h : (x.id == sid) = true
  · rw [if_pos h]; exact ⟨rfl, rfl, rfl, fun _ => rfl⟩
  · rw [if_neg h]; exact stmtLe_refl x

theorem close_stmtLe (st : Ledger) (sid : ℕ) :
    List.Forall₂ StmtLe st.statements (closeStatementIfNeeded envOk false st sid).statements := by
  cases hf : st.statements.find? (fun x => x.id == sid) with
  | none =>
    rw [closeStatement_none_eq envOk false st sid hf]
    exact forall2_stmtLe_refl _
  | some s =>
    cases hbe : s.balanceEndReal with
    | none =>
      rw [closeStatement_unset_eq st sid s hf hbe]
      exact forall2_stmtLe_trans (setBalanceEnd_stmtLe st sid _) (setPosted_stmtLe _ sid)
    | some e =>
      rw [closeStatement_set_eq st sid s e hf hbe]
      exact setPosted_stmtLe st sid

/-- One step of the `closeAllPastMonthlyStatements` sweep loop. -/
def sweepStep (env : Env) (dryRun : Bool) (currentMonthKey : String)
    (acc : Ledger × List Decision) (s : StatementRec) : Ledger × List Decision :=
  match feedMonth s.name with
  | none => acc
  | some m =>
    if jsStrLt m currentMonthKey then
      (closeStatementIfNeeded env dryRun acc.1 s.id, acc.2 ++ [.sweepClose s.name])
    else acc

theorem closeAllPast_eq_foldl (env : Env) (dryRun : Bool) (st : Ledger) (j : ℕ)
    (cur : String) (tr : List Decision) :
    closeAllPastMonthlyStatements env dryRun st j cur tr
      = (st.statements.filter fun s => s.journalId == j).foldl
          (sweepStep env dryRun cur) (st, tr) := rfl

theorem sweepStep_stmtLe (cur : String) (acc : Ledger × List Decision) (s : StatementRec) :
    List.Forall₂ StmtLe acc.1.statements (sweepStep envOk false cur acc s).1.statements := by
  unfold sweepStep
  cases hfm : feedMonth s.name with
  | none => exact forall2_stmtLe_refl _
  | some m =>
    show List.Forall₂ StmtLe acc.1.statements
      (if jsStrLt m cur = true then
          (closeStatementIfNeeded envOk false acc.1 s.id,
            acc.2 ++ [Decision.sweepClose s.name])
        else acc).1.statements
    by_cases hlt : jsStrLt m cur = true
    · rw [if_pos hlt]
      exact close_stmtLe acc.1 s.id
    · rw [if_neg hlt]
      exact forall2_stmtLe_refl _

theorem sweepFold_stmtLe (cur : String) :
    ∀ (l : List StatementRec) (acc : Ledger × List Decision),
      List.Forall₂ StmtLe acc.1.statements
        ((l.foldl (sweepStep envOk false cur) acc)).1.statements := by
  intro l
  induction l with
  | nil => intro acc; exact forall2_stmtLe_refl _
  | cons s l ih =>
    intro acc
    rw [List.foldl_cons]
    exact forall2_stmtLe_trans (sweepStep_stmtLe cur acc s) (ih _)

theorem sweepFold_posts (cur : String) :
    ∀ (l : List StatementRec) (acc : Ledger × List Decision) (s0 : StatementRec),
      s0 ∈ l → ∀ m, feedMonth s0.name = some m → jsStrLt m cur = true →
      ∀ s' ∈ ((l.foldl (sweepStep envOk false cur) acc)).1.statements,
        s'.id = s0.id → s'.posted = true := by
  intro l
  induction l with
  | nil =>
    intro acc s0 hmem
    exact absurd hmem (List.not_mem_nil s0)
  | cons s l ih =>
    intro acc s0 hmem m hfm hlt s' hs' hid
    rw [List.foldl_cons] at hs'
    rcases List.mem_cons.mp hmem with rfl | hmem'
    · have hstep : sweepStep envOk false cur acc s0
          = (closeStatementIfNeeded envOk false acc.1 s0.id,
              acc.2 ++ [Decision.sweepClose s0.name]) := by
        unfold sweepStep
        rw [hfm]
        show (if jsStrLt m cur = true then
            (closeStatementIfNeeded envOk false acc.1 s0.id,
              acc.2 ++ [Decision.sweepClose s0.name])
          else acc)
          = (closeStatementIfNeeded envOk false acc.1 s0.id,
              acc.2 ++ [Decision.sweepClose s0.name])
        rw [if_pos hlt]
      rw [hstep] at hs'
      obtain ⟨x, hx, hxle⟩ := forall2_stmtLe_mem_right (sweepFold_stmtLe cur l _) hs'
      have hxid : x.id = s0.id := hxle.1.symm.trans hid
      exact hxle.2.2.2 (close_posts acc.1 s0.id x hx hxid)
    · exact ih (sweepStep envOk false cur acc s) s0 hmem' m hfm hlt s' hs' hid

theorem closeAllPast_posts (st : Ledger) (j : ℕ) (cur : String) (tr : List Decision) :
    ∀ s' ∈ (closeAllPastMonthlyStatements envOk false st j cur tr).1.statements,
      s'.journalId = j → ∀ m, feedMonth s'.name = some m → jsStrLt m cur = true →
      s'.posted = true := by
  intro s' hs' hj m hfm hlt
  rw [closeAllPast_eq_foldl] at hs'
  obtain ⟨x, hx, hxle⟩ := forall2_stmtLe_mem_right
    (sweepFold_stmtLe cur (st.statements.filter fun s => s.journalId == j) (st, tr)) hs'
  have hxmem : x ∈ st.statements := hx
  have hxj : x.journalId = j := hxle.2.2.1.symm.trans hj
  have hxf : x ∈ st.statements.filter (fun s => s.journalId == j) :=
    List.mem_filter.mpr ⟨hxmem, beq_iff_eq.mpr hxj⟩
  exact sweepFold_posts cur (st.statements.filter fun s => s.journalId == j) (st, tr) x hxf
    m (by rw [← hxle.2.1]; exact hfm) hlt s' hs' hxle.1

/-- The close decisions recorded on a run's trace only ever concern months
strictly before the current month key. -/
def pastOnlyDecision (cur : String) : Decision → Prop
  | .closeMonth m => jsStrLt m cur = true
  | .keepOpen m => jsStrLt m cur = false
  | .sweepClose nm => ∃ m, feedMonth nm = some m ∧ jsStrLt m cur = true
  | _ => True

theorem importEvent_traceP (env : Env) (dryRun : Bool) (w t : String) (sid : ℕ)
    (st : Ledger) (tr : List Decision) (r : TransferEvent) (cur : String)
    {st2 : Ledger} {tr2 : List Decision}
    (h : importEvent env dryRun w t sid (st, tr) r = .ok (st2, tr2))
    (hall : ∀ d ∈ tr, pastOnlyDecision cur d) : ∀ d ∈ tr2, pastOnlyDecision cur d := by
  obtain ⟨-, -, hcase⟩ := importEvent_ok_spec env dryRun w t sid st tr r h
  rcases hcase with ⟨-, -, htr⟩ | ⟨-, -, htr⟩ <;>
  · intro d hd
    rw [htr] at hd
    rcases List.mem_append.mp hd with h1 | h2
    · exact hall d h1
    · rw [List.mem_singleton] at h2
      subst h2
      trivial

theorem importEventList_traceP (env : Env) (dryRun : Bool) (w t : String) (sid : ℕ)
    (cur : String) :
    ∀ (items : List TransferEvent) (st : Ledger) (tr : List Decision)
      {st2 : Ledger} {tr2 : List Decision},
      importEventList env dryRun w t sid (st, tr) items = .ok (st2, tr2) →
      (∀ d ∈ tr, pastOnlyDecision cur d) → ∀ d ∈ tr2, pastOnlyDecision cur d := by
  intro items
  induction items with
  | nil =>
    intro st tr st2 tr2 h hall
    replace h : Except.ok (st, tr) = Except.ok (st2, tr2) := h
    injection h with h1
    injection h1 with h2 h3
    subst h3
    exact hall
  | cons r items ih =>
    intro st tr st2 tr2 h hall
    unfold importEventList at h
    rw [List.foldlM_cons] at h
    cases hr : importEvent env dryRun w t sid (st, tr) r with
    | error e =>
      rw [hr] at h
      exact Except.noConfusion h
    | ok p =>
      obtain ⟨stA, trA⟩ := p
      rw [hr] at h
      replace h : importEventList env dryRun w t sid (stA, trA) items
          = Except.ok (st2, tr2) := h
      exact ih stA trA h (importEvent_traceP env dryRun w t sid st tr r cur hr hall)

theorem importMonthGroup_traceP (env : Env) (dryRun : Bool) (w t : String) (j : ℕ)
    (cur : String) (g : String × List TransferEvent) (st : Ledger) (tr : List Decision)
    {st2 : Ledger} {tr2 : List Decision}
    (h : importMonthGroup env dryRun w t j cur (st, tr) g = .ok (st2, tr2))
    (hall : ∀ d ∈ tr, pastOnlyDecision cur d) : ∀ d ∈ tr2, pastOnlyDecision cur d := by
  unfold importMonthGroup at h
  rcases hget : getOrCreateMonthlyStatement dryRun st j g.1 with ⟨sid0, stG⟩
  rw [hget] at h
  replace h : (match importEventList env dryRun w t sid0 (stG, tr) g.2 with
    | .error e => Except.error e
    | .ok (st3, tr3) =>
      if jsStrLt g.1 cur then
        Except.ok (closeStatementIfNeeded env dryRun st3 sid0,
          tr3 ++ [Decision.closeMonth g.1])
      else Except.ok (st3, tr3 ++ [Decision.keepOpen g.1])) = Except.ok (st2, tr2) := h
  cases hev : importEventList env dryRun w t sid0 (stG, tr) g.2 with
  | error e =>
    rw [hev] at h
    exact Except.noConfusion h
  | ok p =>
    obtain ⟨st3, tr3⟩ := p
    rw [hev] at h
    replace h : (if jsStrLt g.1 cur = true then
        Except.ok (closeStatementIfNeeded env dryRun st3 sid0,
          tr3 ++ [Decision.closeMonth g.1])
      else Except.ok (st3, tr3 ++ [Decision.keepOpen g.1])) = Except.ok (st2, tr2) := h
    have hall3 : ∀ d ∈ tr3, pastOnlyDecision cur d :=
      importEventList_traceP env dryRun w t sid0 cur g.2 stG tr hev hall
    by_cases hlt : jsStrLt g.1 cur = true
    · rw [if_pos hlt] at h
      injection h with h1
      injection h1 with h2 h3
      subst h3
      intro d hd
      rcases List.mem_append.mp hd with h4 | h5
      · exact hall3 d h4
      · rw [List.mem_singleton] at h5
        subst h5
        exact hlt
    · rw [if_neg hlt] at h
      injection h with h1
      injection h1 with h2 h3
      subst h3
      intro d hd
      rcases List.mem_append.mp hd with h4 | h5
      · exact hall3 d h4
      · rw [List.mem_singleton] at h5
        subst h5
        show jsStrLt g.1 cur = false
        rw [← Bool.not_eq_true]
        exact hlt

theorem importGroups_traceP (env : Env) (dryRun : Bool) (w t : String) (j : ℕ)
    (cur : String) :
    ∀ (gs : List (String × List TransferEvent)) (st : Ledger) (tr : List Decision)
      {st2 : Ledger} {tr2 : List Decision},
      gs.foldlM (importMonthGroup env dryRun w t j cur) (st, tr) = .ok (st2, tr2) →
      (∀ d ∈ tr, pastOnlyDecision cur d) → ∀ d ∈ tr2, pastOnlyDecision cur d := by
  intro gs
  induction gs with
  | nil =>
    intro st tr st2 tr2 h hall
    replace h : Except.ok (st, tr) = Except.ok (st2, tr2) := h
    injection h with h1
    injection h1 with h2 h3
    subst h3
    exact hall
  | cons g gs ih =>
    intro st tr st2 tr2 h hall
    rw [List.foldlM_cons] at h
    cases hg : importMonthGroup env dryRun w t j cur (st, tr) g with
    | error e =>
      rw [hg] at h
      exact Except.noConfusion h
    | ok p =>
      obtain ⟨stA, trA⟩ := p
      rw [hg] at h
      replace h : gs.foldlM (importMonthGroup env dryRun w t j cur) (stA, trA)
          = Except.ok (st2, tr2) := h
      exact ih stA trA h (importMonthGroup_traceP env dryRun w t j cur g st tr hg hall)

theorem sweepStep_traceP (env : Env) (dryRun : Bool) (cur : String)
    (acc : Ledger × List Decision) (s : StatementRec)
    (hall : ∀ d ∈ acc.2, pastOnlyDecision cur d) :
    ∀ d ∈ (sweepStep env dryRun cur acc s).2, pastOnlyDecision cur d := by
  unfold sweepStep
  cases hfm : feedMonth s.name with
  | none => exact hall
  | some m =>
    show ∀ d ∈ (if jsStrLt m cur = true then
        (closeStatementIfNeeded env dryRun acc.1 s.id,
          acc.2 ++ [Decision.sweepClose s.name])
      else acc).2, pastOnlyDecision cur d
    by_cases hlt : jsStrLt m cur = true
    · rw [if_pos hlt]
      intro d hd
      rcases List.mem_append.mp hd with h1 | h2
      · exact hall d h1
      · rw [List.mem_singleton] at h2
        subst h2
        exact ⟨m, hfm, hlt⟩
    · rw [if_neg hlt]
      exact hall

theorem sweepFold_traceP (env : Env) (dryRun : Bool) (cur : String) :
    ∀ (l : List StatementRec) (acc : Ledger × List Decision),
      (∀ d ∈ acc.2, pastOnlyDecision cur d) →
      ∀ d ∈ ((l.foldl (sweepStep env dryRun cur) acc)).2, pastOnlyDecision cur d := by
  intro l
  induction l with
  | nil => intro acc hall; exact hall
  | cons s l ih =>
    intro acc hall
    rw [List.foldl_cons]
    exact ih _ (sweepStep_traceP env dryRun cur acc s hall)

theorem closeAllPast_traceP (env : Env) (dryRun : Bool) (st : Ledger) (j : ℕ)
    (cur : String) (tr : List Decision) (hall : ∀ d ∈ tr, pastOnlyDecision cur d) :
    ∀ d ∈ (closeAllPastMonthlyStatements env dryRun st j cur tr).2, pastOnlyDecision cur d := by
  rw [closeAllPast_eq_foldl]
  exact sweepFold_traceP env dryRun cur _ (st, tr) hall

/-- C5 counterexample: a pre-existing statement `Feed 2999-01` whose month
is NOT the current month (`2025-10`) survives a completed run still
unposted: the run leaves an Open period that is not the current month's,
because the sweep only closes months strictly BEFORE the current one and
future-dated (or clock-skewed) months are left open. -/
theorem C5_counterexample :
    runImport envOk false "0xW" "0xT" 55 "2025-10"
        ⟨[⟨1, 55, "Feed 2999-01", none, none, false⟩], [], [], [], 2⟩ []
      = .ok (⟨[⟨1, 55, "Feed 2999-01", none, none, false⟩], [], [], [], 2⟩, []) ∧
    "2999-01" ≠ "2025-10" :=
  ⟨rfl, by decide⟩

/-- C5 amended: after a completed run (all remote operations succeeding),
every statement of the target journal named `Feed m` with month key `m`
strictly before the current month key ends posted (Closed) — including
statements the batch never touched; and every close decision the run takes
(in-batch close, sweep close) concerns only months strictly before the
current month key, while months not strictly before it get an explicit
keep-open decision.  (Nothing closes the current month's period, but a
FUTURE month's period also stays open, and statements not named
`Feed YYYY-MM` are never swept — the spec's "at most the current month's
period is left Open" is too strong.) -/
theorem C5_periodLifecycle (w t : String) (j : ℕ) (cur : String) (st0 : Ledger)
    (transfers : List TransferEvent) (st : Ledger) (tr : List Decision)
    (hrun : runImport envOk false w t j cur st0 transfers = .ok (st, tr)) :
    (∀ s ∈ st.statements, s.journalId = j → ∀ m, feedMonth s.name = some m →
      jsStrLt m cur = true → s.posted = true) ∧
    (∀ m, Decision.closeMonth m ∈ tr → jsStrLt m cur = true) ∧
    (∀ nm, Decision.sweepClose nm ∈ tr →
      ∃ m, feedMonth nm = some m ∧ jsStrLt m cur = true) ∧
    (∀ m, Decision.keepOpen m ∈ tr → jsStrLt m cur = false) := by
  unfold runImport at hrun
  cases hf : (groupByMonth transfers).foldlM
      (importMonthGroup envOk false w t j cur) (st0, []) with
  | error e =>
    rw [hf] at hrun
    exact Except.noConfusion hrun
  | ok p =>
    obtain ⟨stM, trM⟩ := p
    rw [hf] at hrun
    replace hrun : Except.ok (closeAllPastMonthlyStatements envOk false stM j cur trM)
        = Except.ok (st, tr) := hrun
    injection hrun with h1
    have hst : (closeAllPastMonthlyStatements envOk false stM j cur trM).1 = st := by rw [h1]
    have htr : (closeAllPastMonthlyStatements envOk false stM j cur trM).2 = tr := by rw [h1]
    have hallM : ∀ d ∈ trM, pastOnlyDecision cur d :=
      importGroups_traceP envOk false w t j cur (groupByMonth transfers) st0 [] hf
        (fun d hd => absurd hd (List.not_mem_nil d))
    have hallF : ∀ d ∈ tr, pastOnlyDecision cur d := by
      rw [← htr]
      exact closeAllPast_traceP envOk false stM j cur trM hallM
    refine ⟨?_, ?_, ?_, ?_⟩
    · intro s hs hj m hfm hlt
      rw [← hst] at hs
      exact closeAllPast_posts stM j cur trM s hs hj m hfm hlt
    · intro m hm
      exact hallF _ hm
    · intro nm hnm
      exact hallF _ hnm
    · intro m hm
      exact hallF _ hm

/-- Witness for C5: a run over an empty batch with a pre-existing Open
statement `Feed 2024-01` of the journal, current month `2025-10`, ends with
every past-month feed statement of the journal posted. -/
theorem C5_periodLifecycle_witness :
    ∃ st tr, runImport envOk false "0xW" "0xT" 55 "2025-10"
        ⟨[⟨1, 55, "Feed 2024-01", none, none, false⟩], [], [], [], 2⟩ []
        = .ok (st, tr) ∧
      ∀ s ∈ st.statements, s.journalId = 55 → ∀ m, feedMonth s.name = some m →
        jsStrLt m "2025-10" = true → s.posted = true :=
  ⟨_, _, rfl,
    (C5_periodLifecycle "0xW" "0xT" 55 "2025-10"
      ⟨[⟨1, 55, "Feed 2024-01", none, none, false⟩], [], [], [], 2⟩ [] _ _ rfl).1⟩

/-! ### C9 -/

theorem findOrCreatePartnerBank_dry (env : Env) (st : Ledger) (pid : ℕ) (iban : String) :
    ∃ bid, findOrCreatePartnerBank env true st pid iban = .ok (bid, st) := by
  unfold findOrCreatePartnerBank
  dsimp only
  by_cases hacc : (normalizeAcc iban == "") = true
  · rw [if_pos hacc]
    exact ⟨0, rfl⟩
  · rw [if_neg hacc]
    cases hfb : findBankAccountByIdentifier st (normalizeAcc iban) with
    | some bid => exact ⟨bid, rfl⟩
    | none => exact ⟨888888, rfl⟩

theorem findOrCreatePartnerBank_realOk (st : Ledger) (pid : ℕ) (iban : String) :
    ∃ bid st1, findOrCreatePartnerBank envOk false st pid iban = .ok (bid, st1) ∧
      st1.lines = st.lines := by
  unfold findOrCreatePartnerBank
  dsimp only
  by_cases hacc : (normalizeAcc iban == "") = true
  · rw [if_pos hacc]
    exact ⟨0, st, rfl, rfl⟩
  · rw [if_neg hacc]
    cases hfb : findBankAccountByIdentifier st (normalizeAcc iban) with
    | some bid => exact ⟨bid, st, rfl, rfl⟩
    | none =>
      by_cases hp : (pid != 0) = true
      · rw [if_pos hp]
        exact ⟨st.nextId, _, rfl, rfl⟩
      · rw [if_neg hp]
        unfold findOrCreatePartnerByName
        cases hpn : partnerIdByName st "Unknown" with
        | some pid2 => exact ⟨st.nextId, _, rfl, rfl⟩
        | none => exact ⟨_, _, rfl, rfl⟩

theorem closeStatement_dry (env : Env) (st : Ledger) (sid : ℕ) :
    closeStatementIfNeeded env true st sid = st := by
  unfold closeStatementIfNeeded
  split
  · rfl
  · next s heq =>
    cases hbe : s.balanceEndReal with
    | none => rfl
    | some e => rfl

theorem getOrCreate_dry (st : Ledger) (j : ℕ) (mk : String) :
    ∃ sid, getOrCreateMonthlyStatement true st j mk = (sid, st) := by
  unfold getOrCreateMonthlyStatement
  dsimp only
  cases hfind : st.statements.find? (fun s => s.journalId == j && s.name == ("Feed " ++ mk)) with
  | some s => exact ⟨s.id, rfl⟩
  | none => exact ⟨777777, rfl⟩

theorem importEvent_dry (env : Env) (w t : String) (sid : ℕ) (st : Ledger)
    (tr : List Decision) (r : TransferEvent) :
    ∃ tr2, importEvent env true w t sid (st, tr) r = .ok (st, tr2) := by
  obtain ⟨bidD, hD⟩ := findOrCreatePartnerBank_dry env st 0
    (jsToLower (if r.fromAddr == w then r.toAddr else r.fromAddr))
  have hXeq : importEvent env true w t sid (st, tr) r
      = (if (jsTrim r.hash != "" && hasUid st (jsTrim r.hash)) = true then
          Except.ok (st, tr ++ [Decision.skipDup (jsTrim r.hash)])
        else createLine env true st tr (mkLine t sid r)) := by
    unfold importEvent
    dsimp only
    rw [hD]
    show (if (jsTrim r.hash != "" && hasUid
          (if (bidD != 0 && !true) = true then enrichPartnerFromBank st bidD else st)
          (jsTrim r.hash)) = true then
        Except.ok ((if (bidD != 0 && !true) = true then enrichPartnerFromBank st bidD else st),
          tr ++ [Decision.skipDup (jsTrim r.hash)])
      else createLine env true
        (if (bidD != 0 && !true) = true then enrichPartnerFromBank st bidD else st) tr
        (mkLine t sid r)) = _
    simp only [Bool.not_true, Bool.and_false, Bool.false_eq_true, if_false]
  by_cases hskip : (jsTrim r.hash != "" && hasUid st (jsTrim r.hash)) = true
  · refine ⟨tr ++ [Decision.skipDup (jsTrim r.hash)], ?_⟩
    rw [hXeq, if_pos hskip]
  · refine ⟨tr ++ [Decision.createLine (mkLine t sid r).paymentRef], ?_⟩
    rw [hXeq, if_neg hskip]
    rfl

theorem importEventList_dry (env : Env) (w t : String) (sid : ℕ) :
    ∀ (items : List TransferEvent) (st : Ledger) (tr : List Decision),
      ∃ tr2, importEventList env true w t sid (st, tr) items = .ok (st, tr2) := by
  intro items
  induction items with
  | nil => intro st tr; exact ⟨tr, rfl⟩
  | cons r items ih =>
    intro st tr
    obtain ⟨trA, hA⟩ := importEvent_dry env w t sid st tr r
    obtain ⟨tr2, h2⟩ := ih st trA
    refine ⟨tr2, ?_⟩
    unfold importEventList
    rw [List.foldlM_cons, hA]
    exact h2

theorem importMonthGroup_dry (env : Env) (w t : String) (j : ℕ) (cur : String)
    (g : String × List TransferEvent) (st : Ledger) (tr : List Decision) :
    ∃ tr2, importMonthGroup env true w t j cur (st, tr) g = .ok (st, tr2) := by
  obtain ⟨sid, hget⟩ := getOrCreate_dry st j g.1
  obtain ⟨trE, hE⟩ := importEventList_dry env w t sid g.2 st tr
  unfold importMonthGroup
  rw [hget]
  by_cases hlt : jsStrLt g.1 cur = true
  · refine ⟨trE ++ [Decision.closeMonth g.1], ?_⟩
    show (match importEventList env true w t sid (st, tr) g.2 with
      | .error e => Except.error e
      | .ok (st2, tr2) =>
        if jsStrLt g.1 cur then
          Except.ok (closeStatementIfNeeded env true st2 sid, tr2 ++ [Decision.closeMonth g.1])
        else Except.ok (st2, tr2 ++ [Decision.keepOpen g.1]))
      = Except.ok (st, trE ++ [Decision.closeMonth g.1])
    rw [hE]
    show (if jsStrLt g.1 cur = true then
        Except.ok (closeStatementIfNeeded env true st sid, trE ++ [Decision.closeMonth g.1])
      else Except.ok (st, trE ++ [Decision.keepOpen g.1]))
      = Except.ok (st, trE ++ [Decision.closeMonth g.1])
    rw [if_pos hlt, closeStatement_dry]
  · refine ⟨trE ++ [Decision.keepOpen g.1], ?_⟩
    show (match importEventList env true w t sid (st, tr) g.2 with
      | .error e => Except.error e
      | .ok (st2, tr2) =>
        if jsStrLt g.1 cur then
          Except.ok (closeStatementIfNeeded env true st2 sid, tr2 ++ [Decision.closeMonth g.1])
        else Except.ok (st2, tr2 ++ [Decision.keepOpen g.1]))
      = Except.ok (st, trE ++ [Decision.keepOpen g.1])
    rw [hE]
    show (if jsStrLt g.1 cur = true then
        Except.ok (closeStatementIfNeeded env true st sid, trE ++ [Decision.closeMonth g.1])
      else Except.ok (st, trE ++ [Decision.keepOpen g.1]))
      = Except.ok (st, trE ++ [Decision.keepOpen g.1])
    rw [if_neg hlt]

theorem importGroups_dry (env : Env) (w t : String) (j : ℕ) (cur : String) :
    ∀ (gs : List (String × List TransferEvent)) (st : Ledger) (tr : List Decision),
      ∃ tr2, gs.foldlM (importMonthGroup env true w t j cur) (st, tr) = .ok (st, tr2) := by
  intro gs
  induction gs with
  | nil => intro st tr; exact ⟨tr, rfl⟩
  | cons g gs ih =>
    intro st tr
    obtain ⟨trA, hA⟩ := importMonthGroup_dry env w t j cur g st tr
    obtain ⟨tr2, h2⟩ := ih st trA
    refine ⟨tr2, ?_⟩
    rw [List.foldlM_cons, hA]
    exact h2

theorem closeAllPast_dry (env : Env) (st : Ledger) (j : ℕ) (cur : String)
    (tr : List Decision) :
    (closeAllPastMonthlyStatements env true st j cur tr).1 = st := by
  rw [closeAllPast_eq_foldl]
  refine foldl_preserve (sweepStep env true cur) (fun x => x = st) ?_ _ (st, tr) rfl
  intro acc a hP
  unfold sweepStep
  cases hfm : feedMonth a.name with
  | none => exact hP
  | some m =>
    show (if jsStrLt m cur = true then
        (closeStatementIfNeeded env true acc.1 a.id, acc.2 ++ [Decision.sweepClose a.name])
      else acc).1 = st
    by_cases hlt : jsStrLt m cur = true
    · rw [if_pos hlt]
      show closeStatementIfNeeded env true acc.1 a.id = st
      rw [closeStatement_dry]
      exact hP
    · rw [if_neg hlt]
      exact hP

theorem runImport_dry (env : Env) (w t : String) (j : ℕ) (cur : String)
    (st0 : Ledger) (transfers : List TransferEvent) :
    ∃ tr, runImport env true w t j cur st0 transfers = .ok (st0, tr) := by
  obtain ⟨trM, hM⟩ := importGroups_dry env w t j cur (groupByMonth transfers) st0 []
  rcases hc : closeAllPastMonthlyStatements env true st0 j cur trM with ⟨a, b⟩
  have ha := closeAllPast_dry env st0 j cur trM
  rw [hc] at ha
  replace ha : a = st0 := ha
  subst ha
  refine ⟨b, ?_⟩
  unfold runImport
  rw [hM]
  show Except.ok (closeAllPastMonthlyStatements env true a j cur trM) = Except.ok (a, b)
  rw [hc]

theorem importEvent_dry_decision (w t : String) (sid : ℕ) (st : Ledger)
    (tr : List Decision) (r : TransferEvent) :
    (importEvent envOk true w t sid (st, tr) r).map Prod.snd
      = (importEvent envOk false w t sid (st, tr) r).map Prod.snd := by
  obtain ⟨bidD, hD⟩ := findOrCreatePartnerBank_dry envOk st 0
    (jsToLower (if r.fromAddr == w then r.toAddr else r.fromAddr))
  obtain ⟨bid, st1, hR, hRl⟩ := findOrCreatePartnerBank_realOk st 0
    (jsToLower (if r.fromAddr == w then r.toAddr else r.fromAddr))
  have hL : importEvent envOk true w t sid (st, tr) r
      = (if (jsTrim r.hash != "" && hasUid st (jsTrim r.hash)) = true then
          Except.ok (st, tr ++ [Decision.skipDup (jsTrim r.hash)])
        else createLine envOk true st tr (mkLine t sid r)) := by
    unfold importEvent
    dsimp only
    rw [hD]
    show (if (jsTrim r.hash != "" && hasUid
          (if (bidD != 0 && !true) = true then enrichPartnerFromBank st bidD else st)
          (jsTrim r.hash)) = true then
        Except.ok ((if (bidD != 0 && !true) = true then enrichPartnerFromBank st bidD else st),
          tr ++ [Decision.skipDup (jsTrim r.hash)])
      else createLine envOk true
        (if (bidD != 0 && !true) = true then enrichPartnerFromBank st bidD else st) tr
        (mkLine t sid r)) = _
    simp only [Bool.not_true, Bool.and_false, Bool.false_eq_true, if_false]
  have hst2 : ∃ st2, (if (bid != 0 && !false) = true then enrichPartnerFromBank st1 bid
      else st1) = st2 ∧ st2.lines = st.lines := by
    by_cases hb2 : (bid != 0 && !false) = true
    · rw [if_pos hb2]
      exact ⟨_, rfl, (enrichPartnerFromBank_state st1 bid).1.trans hRl⟩
    · rw [if_neg hb2]
      exact ⟨st1, rfl, hRl⟩
  obtain ⟨st2, hEq2, hl2⟩ := hst2
  have hRs : importEvent envOk false w t sid (st, tr) r
      = (if (jsTrim r.hash != "" && hasUid st (jsTrim r.hash)) = true then
          Except.ok (st2, tr ++ [Decision.skipDup (jsTrim r.hash)])
        else createLine envOk false st2 tr (mkLine t sid r)) := by
    unfold importEvent
    dsimp only
    rw [hR]
    show (if (jsTrim r.hash != "" && hasUid
          (if (bid != 0 && !false) = true then enrichPartnerFromBank st1 bid else st1)
          (jsTrim r.hash)) = true then
        Except.ok ((if (bid != 0 && !false) = true then enrichPartnerFromBank st1 bid else st1),
          tr ++ [Decision.skipDup (jsTrim r.hash)])
      else createLine envOk false
        (if (bid != 0 && !false) = true then enrichPartnerFromBank st1 bid else st1) tr
        (mkLine t sid r)) = _
    rw [hEq2, hasUid_eq_of_lines hl2]
  rw [hL, hRs]
  by_cases hskip : (jsTrim r.hash != "" && hasUid st (jsTrim r.hash)) = true
  · rw [if_pos hskip, if_pos hskip]
    rfl
  · rw [if_neg hskip, if_neg hskip]
    rfl

/-- C9 counterexample: two transfers sharing one hash, imported dry and
for real from the same empty ledger, take DIFFERENT control-flow paths:
the dry run creates (logs) both lines and sweeps nothing, while the real
run skips the second as a duplicate and sweeps the created statement —
because the dry run's suppressed writes are invisible to the later dedup
check and to the closing sweep. -/
theorem C9_counterexample :
    (runImport envOk true "0xW" "0xT" 55 "2025-10" emptyLedger
        [⟨"0xcc", "0", "0xS", "0xW", 5, 18, 0, "2024-02-03"⟩,
         ⟨"0xcc", "1", "0xS", "0xW", 7, 18, 0, "2024-02-04"⟩]).map Prod.snd
      = .ok [.createLine "0xcc:0:0xT", .createLine "0xcc:1:0xT", .closeMonth "2024-02"] ∧
    (runImport envOk false "0xW" "0xT" 55 "2025-10" emptyLedger
        [⟨"0xcc", "0", "0xS", "0xW", 5, 18, 0, "2024-02-03"⟩,
         ⟨"0xcc", "1", "0xS", "0xW", 7, 18, 0, "2024-02-04"⟩]).map Prod.snd
      = .ok [.createLine "0xcc:0:0xT", .skipDup "0xcc", .closeMonth "2024-02",
          .sweepClose "Feed 2024-02"] ∧
    ([.createLine "0xcc:0:0xT", .createLine "0xcc:1:0xT", .closeMonth "2024-02"] :
        List Decision)
      ≠ [.createLine "0xcc:0:0xT", .skipDup "0xcc", .closeMonth "2024-02",
          .sweepClose "Feed 2024-02"] :=
  ⟨rfl, rfl, by decide⟩

/-- C9 amended: in dry-run mode every write is suppressed — partner
creation returns the fixed synthetic id 999999, bank-account creation
888888, statement creation 777777, closing is a no-op, and a whole dry run
leaves the ledger exactly as it was; a single event processed dry from the
SAME ledger state takes the same skip/create decision as a real run.  But
the control flow of a whole batch is NOT identical to a real run's: the
suppressed writes are invisible to later dedup checks and to the closing
sweep (see the counterexample). -/
theorem C9_dryRun :
    (∀ (env : Env) (st : Ledger) (nm : String),
      createPartner env true st nm = .ok (999999, st)) ∧
    (∀ (env : Env) (st : Ledger) (acc : String) (pid : ℕ),
      createBankAccount env true st acc pid = .ok (888888, st)) ∧
    (∀ (st : Ledger) (j : ℕ) (mk : String),
      st.statements.find? (fun s => s.journalId == j && s.name == ("Feed " ++ mk)) = none →
      getOrCreateMonthlyStatement true st j mk = (777777, st)) ∧
    (∀ (env : Env) (st : Ledger) (sid : ℕ), closeStatementIfNeeded env true st sid = st) ∧
    (∀ (env : Env) (w t : String) (j : ℕ) (cur : String) (st0 : Ledger)
      (transfers : List TransferEvent),
      ∃ tr, runImport env true w t j cur st0 transfers = .ok (st0, tr)) ∧
    (∀ (w t : String) (sid : ℕ) (st : Ledger) (tr : List Decision) (r : TransferEvent),
      (importEvent envOk true w t sid (st, tr) r).map Prod.snd
        = (importEvent envOk false w t sid (st, tr) r).map Prod.snd) := by
  refine ⟨fun env st nm => rfl, fun env st acc pid => rfl, ?_, closeStatement_dry,
    runImport_dry, importEvent_dry_decision⟩
  intro st j mk hnone
  unfold getOrCreateMonthlyStatement
  dsimp only
  rw [hnone]
  rfl

/-- Witness for C9: a dry-run statement lookup on an empty ledger returns
the synthetic id 777777 and leaves the ledger untouched. -/
theorem C9_dryRun_witness :
    getOrCreateMonthlyStatement true emptyLedger 55 "2024-05" = (777777, emptyLedger) :=
  C9_dryRun.2.2.1 emptyLedger 55 "2024-05" rfl

end OdooWeb3
